import Mathlib

/-!
# Verification of the FaaS gateway request-dispatch core

This file embeds the dispatch core of `src/gateway/server.cpp` (class
`faas::gateway::Server`) as executable Lean definitions and proves the
testable properties of the specification against them.

Modelling conventions:
- The CallTable mutex makes every critical section atomic; operations are
  modelled as pure functions on an explicit `ServerState`.  Points where the
  code releases the lock mid-operation (the drain loop of
  `TryDispatchingPendingFuncCalls`) are modelled explicitly by an `arrivals`
  parameter that injects states enqueued concurrently during the unlocked
  window.
- External collaborators are oracles: `PickNodeForNewFuncCall` results,
  `SendMessage` results and clock readings are inputs of each operation.
- Calls into `NodeManager` and the parent connections are recorded as
  `Event`s so that trace properties (reservation balance, callback
  suppression) can be counted.
- Machine integers: timestamps are `Int` (int64 never overflows in any
  reachable trace we consider, the cast to `int32` samples is modelled by
  `toInt32`); the 16-bit wire fields are `Nat` reduced mod `2^16`; the
  `uint32` counter `next_call_id_` is a `Nat` whose allocated value is taken
  mod `2^32`.
-/

namespace Gateway

/-- Signed 32-bit wrap of an `Int`, modelling `gsl::narrow_cast<int32_t>`. -/
def toInt32 (v : Int) : Int :=
  (v + 2 ^ 31) % 2 ^ 32 - 2 ^ 31

/-- Modelled from the spec (§3, protocol header not under `src/`): the
compact invocation identifier.  `func_id`, `method_id`, `client_id`,
`call_id` are 16-bit fields; their concatenation is `full_call_id`. -/
structure FuncCall where
  func_id : Nat
  method_id : Nat
  client_id : Nat
  call_id : Nat
deriving DecidableEq

/-- `full_call_id`: the 64-bit concatenation of the four 16-bit fields,
primary key of the call table (modelled from the spec §3). -/
def fullCallId (fc : FuncCall) : Nat :=
  fc.func_id % 2 ^ 16 + 2 ^ 16 * (fc.method_id % 2 ^ 16)
    + 2 ^ 32 * (fc.client_id % 2 ^ 16) + 2 ^ 48 * (fc.call_id % 2 ^ 16)

/-- All four fields already reduced below `2^16`. -/
def reducedFC (fc : FuncCall) : Prop :=
  fc.func_id < 2 ^ 16 ∧ fc.method_id < 2 ^ 16 ∧
    fc.client_id < 2 ^ 16 ∧ fc.call_id < 2 ^ 16

instance (fc : FuncCall) : Decidable (reducedFC fc) := by
  unfold reducedFC; infer_instance

/-- Modelled from the spec: `FuncCallHelper::New` builds a `FuncCall` with
`method_id = 0`, narrowing each field to 16 bits. -/
def FuncCallHelper.New (func_id client_id call_id : Nat) : FuncCall :=
  ⟨func_id % 2 ^ 16, 0, client_id % 2 ^ 16, call_id % 2 ^ 16⟩

/-- Modelled from the spec: `FuncCallHelper::NewWithMethod`. -/
def FuncCallHelper.NewWithMethod (func_id method_id client_id call_id : Nat) : FuncCall :=
  ⟨func_id % 2 ^ 16, method_id % 2 ^ 16, client_id % 2 ^ 16, call_id % 2 ^ 16⟩

/-- Status field of a `FuncCallContext` (`kNotFound`, `kSuccess`, `kFailed`,
plus the initial pending value). -/
inductive CallStatus where
  | kPending
  | kSuccess
  | kFailed
  | kNotFound
deriving DecidableEq

/-- Modelled from the spec (§3, the HTTP/gRPC collaborator): the mutable
per-request context.  Mutations through the C++ pointer are modelled by
value updates threaded through the operations. -/
structure FuncCallContext where
  func_name : String
  method_name : String
  is_async : Bool
  input : List Nat
  status : CallStatus
  output : List Nat
  func_call : FuncCall
deriving DecidableEq

instance : Inhabited FuncCallContext :=
  ⟨⟨"", "", false, [], CallStatus.kPending, [], ⟨0, 0, 0, 0⟩⟩⟩

/-- A function-config entry (`FuncConfig`, read-only after load). -/
structure FuncEntry where
  func_id : Nat
  func_name : String
  is_grpc_service : Bool
  grpc_method_ids : List (String × Nat)
deriving DecidableEq

/-- The read-only function configuration. -/
structure FuncConfig where
  entries : List FuncEntry
deriving DecidableEq

/-- `FuncConfig::find_by_func_name`. -/
def FuncConfig.find_by_func_name (cfg : FuncConfig) (name : String) : Option FuncEntry :=
  cfg.entries.find? (fun e => e.func_name == name)

/-- `FuncConfig::find_by_func_id`. -/
def FuncConfig.find_by_func_id (cfg : FuncConfig) (id : Nat) : Option FuncEntry :=
  cfg.entries.find? (fun e => e.func_id == id)

/-- `Server::FuncCallState`: the lifecycle record owned by the call table.
`connection_id = -1` marks an async call; `context` is the (non-null for
sync calls) pointer to the parent connection's context; `input` models the
owned copy `input_buf`/`input` populated for queued async calls. -/
structure FuncCallState where
  func_call : FuncCall
  connection_id : Int
  context : Option FuncCallContext
  recv_timestamp : Int
  dispatch_timestamp : Int
  input : List Nat
deriving DecidableEq

/-- `protocol::GatewayMessage` message types used by the gateway. -/
inductive GMType where
  | engineHandshake
  | dispatchFuncCall
  | funcCallComplete
  | funcCallFailed
deriving DecidableEq

/-- The wire envelope fields the dispatch core reads. -/
structure GatewayMessage where
  mtype : GMType
  func_call : FuncCall
  processing_time : Int
  payload_size : Nat
deriving DecidableEq

/-- `GatewayMessageHelper::IsFuncCallComplete`. -/
def GatewayMessageHelper.IsFuncCallComplete (m : GatewayMessage) : Bool :=
  m.mtype == GMType.funcCallComplete

/-- `GatewayMessageHelper::IsFuncCallFailed`. -/
def GatewayMessageHelper.IsFuncCallFailed (m : GatewayMessage) : Bool :=
  m.mtype == GMType.funcCallFailed

/-- Observable calls the server makes into its collaborators: node picks and
reservation releases on the `NodeManager`, sends over engine links, and the
parent connection's completion callback (`FinishFuncCall`). -/
inductive Event where
  | pick (fc : FuncCall) (result : Option Nat)
  | finished (fc : FuncCall) (node : Nat)
  | send (node : Nat) (fc : FuncCall) (payload : List Nat) (ok : Bool)
  | finish (conn : Int) (ctx : FuncCallContext)
  | logCannotFind (fc : FuncCall)
  | warnAsyncFailed (fc : FuncCall)
deriving DecidableEq

/-- Per-function statistics (`Server::PerFuncStat`). -/
structure PerFuncStat where
  last_request_timestamp : Int
  incoming_count : Nat
  request_interval_samples : List Int
  end2end_delay_samples : List Int
deriving DecidableEq

/-- A fresh `PerFuncStat` (constructor: `last_request_timestamp(-1)`). -/
def PerFuncStat.init : PerFuncStat :=
  ⟨-1, 0, [], []⟩

/-- Association-list lookup, modelling `absl::flat_hash_map` lookup. -/
def lookupA {α : Type} (m : List (Nat × α)) (k : Nat) : Option α :=
  match m with
  | [] => none
  | kv :: rest => if kv.1 = k then some kv.2 else lookupA rest k

/-- Association-list overwrite-insert (`m[k] = v`). -/
def insertA {α : Type} (m : List (Nat × α)) (k : Nat) (v : α) : List (Nat × α) :=
  (k, v) :: m.filter (fun e => !(e.1 == k))

/-- Association-list erase (`m.erase(k)`). -/
def eraseA {α : Type} (m : List (Nat × α)) (k : Nat) : List (Nat × α) :=
  m.filter (fun e => !(e.1 == k))

/-- Keys of an association list. -/
def keysA {α : Type} (m : List (Nat × α)) : List Nat :=
  m.map Prod.fst

/-- Set-insert on a `Nat` list (`flat_hash_set::insert`). -/
def insertSetN (l : List Nat) (x : Nat) : List Nat :=
  if x ∈ l then l else x :: l

/-- Set-insert on an `Int` list (client-connection registration). -/
def insertSetI (l : List Int) (x : Int) : List Int :=
  if x ∈ l then l else x :: l

/-- The mutex-protected call-table state of `gateway::Server`, together with
the function config, the allocation counter, the statistics the claims
mention, and the `NodeManager` reservation multiset.  The reservation
multiset is modelled from the spec (§4.3; `node_manager.cpp` is not under
`src/`): `pick` adds a `(full_call_id, node_id)` reservation,
`FuncCallFinished` releases one. -/
structure ServerState where
  func_config : FuncConfig
  pending : List FuncCallState
  running : List (Nat × FuncCallState)
  discarded : List Nat
  connections : List Int
  next_call_id : Nat
  last_request_timestamp : Int
  per_func_stats : List (Nat × PerFuncStat)
  nm_reservations : List (Nat × Nat)
  incoming_requests : Nat
  request_interval_samples : List Int
  running_requests_samples : List Nat
  queueing_delay_samples : List Int
  dispatch_overhead_samples : List Int
deriving DecidableEq

/-- The state right after `Server::Server()` (counter starts at 1, sentinel
timestamp `-1`, empty tables). -/
def initServer (cfg : FuncConfig) : ServerState :=
  { func_config := cfg
    pending := []
    running := []
    discarded := []
    connections := []
    next_call_id := 1
    last_request_timestamp := -1
    per_func_stats := []
    nm_reservations := []
    incoming_requests := 0
    request_interval_samples := []
    running_requests_samples := []
    queueing_delay_samples := []
    dispatch_overhead_samples := [] }

/-- `Server::TickNewFuncCall` (lines 315-329): lazily create the per-func
entry, tick the counter, bump the per-func timestamp to `last + 1` when the
candidate does not exceed it, and sample the interval when the *global*
`last_request_timestamp_` is not the sentinel (the code checks the global
field, line 324). -/
def Server.TickNewFuncCall (s : ServerState) (func_id : Nat) (current_timestamp : Int) :
    ServerState :=
  let pf := (lookupA s.per_func_stats func_id).getD PerFuncStat.init
  let pf := { pf with incoming_count := pf.incoming_count + 1 }
  let ct := if current_timestamp ≤ pf.last_request_timestamp
            then pf.last_request_timestamp + 1 else current_timestamp
  let pf := if s.last_request_timestamp ≠ -1
            then { pf with request_interval_samples :=
                    pf.request_interval_samples
                      ++ [toInt32 (ct - pf.last_request_timestamp)] }
            else pf
  { s with per_func_stats :=
      insertA s.per_func_stats func_id { pf with last_request_timestamp := ct } }

/-- `Server::DispatchFuncCall` (lines 398-410): send the dispatch envelope;
on failure release the reservation, set `kNotFound` and finish the call.
The send result is the oracle `sendOk`.  Returns
`(success, reservations, context, events)`. -/
def Server.DispatchFuncCall (res : List (Nat × Nat)) (parent_conn : Int)
    (ctx : FuncCallContext) (node_id : Nat) (sendOk : Bool) :
    Bool × List (Nat × Nat) × FuncCallContext × List Event :=
  let func_call := ctx.func_call
  if sendOk then
    (true, res, ctx, [Event.send node_id func_call ctx.input true])
  else
    let res := res.erase (fullCallId func_call, node_id)
    let ctx := { ctx with status := CallStatus.kNotFound }
    (false, res, ctx,
      [Event.send node_id func_call ctx.input false,
       Event.finished func_call node_id,
       Event.finish parent_conn ctx])

/-- `Server::DispatchAsyncFuncCall` (lines 412-421). -/
def Server.DispatchAsyncFuncCall (res : List (Nat × Nat)) (func_call : FuncCall)
    (input : List Nat) (node_id : Nat) (sendOk : Bool) :
    Bool × List (Nat × Nat) × List Event :=
  if sendOk then
    (true, res, [Event.send node_id func_call input true])
  else
    (false, res.erase (fullCallId func_call, node_id),
      [Event.send node_id func_call input false, Event.finished func_call node_id])

/-- `Server::OnNewFuncCallCommon` (lines 331-396).  `pick` is the
`PickNodeForNewFuncCall` oracle (a successful pick records a reservation),
`sendOk` the `SendMessage` oracle, `clock` the `GetMonotonicMicroTimestamp`
reading of the critical section.  Returns the new state, the context as the
caller observes it, and the emitted events. -/
def Server.OnNewFuncCallCommon (s : ServerState) (parent_conn : Int)
    (ctx : FuncCallContext) (pick : Option Nat) (sendOk : Bool) (clock : Int) :
    ServerState × FuncCallContext × List Event :=
  let func_call := ctx.func_call
  let state0 : FuncCallState :=
    { func_call := func_call
      connection_id := if ctx.is_async then -1 else parent_conn
      context := if ctx.is_async then none else some ctx
      recv_timestamp := 0
      dispatch_timestamp := 0
      input := [] }
  let s0 := match pick with
    | some n => { s with nm_reservations := (fullCallId func_call, n) :: s.nm_reservations }
    | none => s
  let state1 := { state0 with recv_timestamp := clock }
  let ct := if clock ≤ s0.last_request_timestamp
            then s0.last_request_timestamp + 1 else clock
  let s1 := { s0 with
    incoming_requests := s0.incoming_requests + 1
    request_interval_samples :=
      if s0.last_request_timestamp ≠ -1
      then s0.request_interval_samples ++ [toInt32 (ct - s0.last_request_timestamp)]
      else s0.request_interval_samples
    last_request_timestamp := ct }
  let s2 := Server.TickNewFuncCall s1 func_call.func_id ct
  let ps :=
    if pick.isNone then
      let state2 := if ctx.is_async then { state1 with input := ctx.input } else state1
      ({ s2 with pending := s2.pending ++ [state2] }, state2)
    else (s2, state1)
  let s3 := ps.1
  let state2 := ps.2
  let dr :=
    if ctx.is_async then
      match pick with
      | none =>
        let ctx1 := { ctx with status := CallStatus.kSuccess }
        (false, s3, ctx1, [Event.finish parent_conn ctx1])
      | some node =>
        let r := Server.DispatchAsyncFuncCall s3.nm_reservations func_call ctx.input node sendOk
        let ctx1 := { ctx with status :=
          if r.1 then CallStatus.kSuccess else CallStatus.kNotFound }
        (r.1, { s3 with nm_reservations := r.2.1 }, ctx1,
          r.2.2 ++ [Event.finish parent_conn ctx1])
    else
      match pick with
      | none => (false, s3, ctx, [])
      | some node =>
        let r := Server.DispatchFuncCall s3.nm_reservations parent_conn ctx node sendOk
        (r.1, { s3 with nm_reservations := r.2.1 }, r.2.2.1, r.2.2.2)
  let dispatched := dr.1
  let s4 := dr.2.1
  let ctx2 := dr.2.2.1
  let evs2 := dr.2.2.2
  let s5 :=
    if dispatched then
      let st := { state2 with dispatch_timestamp := state2.recv_timestamp }
      let running1 := insertA s4.running (fullCallId func_call) st
      { s4 with running := running1
                running_requests_samples :=
                  s4.running_requests_samples ++ [running1.length] }
    else s4
  (s5, ctx2, Event.pick func_call pick :: evs2)

/-- `Server::OnNewHttpFuncCall` (lines 143-156): resolve the function name;
absent entries finish immediately with `kNotFound`; otherwise allocate the
call id (`fetch_add` on the `uint32` counter) and run the common path. -/
def Server.OnNewHttpFuncCall (s : ServerState) (parent_conn : Int)
    (ctx : FuncCallContext) (pick : Option Nat) (sendOk : Bool) (clock : Int) :
    ServerState × FuncCallContext × List Event :=
  match s.func_config.find_by_func_name ctx.func_name with
  | none =>
    let ctx1 := { ctx with status := CallStatus.kNotFound }
    (s, ctx1, [Event.finish parent_conn ctx1])
  | some func_entry =>
    let call_id := s.next_call_id % 2 ^ 32
    let s1 := { s with next_call_id := s.next_call_id + 1 }
    let func_call := FuncCallHelper.New func_entry.func_id 0 call_id
    let ctx1 := { ctx with func_call := func_call }
    Server.OnNewFuncCallCommon s1 parent_conn ctx1 pick sendOk clock

/-- `Server::OnNewGrpcFuncCall` (lines 158-175): additionally reject
non-gRPC entries and unknown method names. -/
def Server.OnNewGrpcFuncCall (s : ServerState) (parent_conn : Int)
    (ctx : FuncCallContext) (pick : Option Nat) (sendOk : Bool) (clock : Int) :
    ServerState × FuncCallContext × List Event :=
  match s.func_config.find_by_func_name ctx.func_name with
  | none =>
    let ctx1 := { ctx with status := CallStatus.kNotFound }
    (s, ctx1, [Event.finish parent_conn ctx1])
  | some func_entry =>
    if !func_entry.is_grpc_service
        || (func_entry.grpc_method_ids.find? (fun e => e.1 == ctx.method_name)).isNone then
      let ctx1 := { ctx with status := CallStatus.kNotFound }
      (s, ctx1, [Event.finish parent_conn ctx1])
    else
      let method_id :=
        ((func_entry.grpc_method_ids.find? (fun e => e.1 == ctx.method_name)).getD ("", 0)).2
      let call_id := s.next_call_id % 2 ^ 32
      let s1 := { s with next_call_id := s.next_call_id + 1 }
      let func_call := FuncCallHelper.NewWithMethod func_entry.func_id method_id 0 call_id
      let ctx1 := { ctx with func_call := func_call }
      Server.OnNewFuncCallCommon s1 parent_conn ctx1 pick sendOk clock

/-- `Server::DiscardFuncCall` (lines 177-180). -/
def Server.DiscardFuncCall (s : ServerState) (fc : FuncCall) : ServerState :=
  { s with discarded := insertSetN s.discarded (fullCallId fc) }

/-- Oracle inputs of one drain-loop pick: the `PickNodeForNewFuncCall`
result, the `SendMessage` result, and the clock read at the re-lock. -/
structure DrainOracle where
  pick : Option Nat
  sendOk : Bool
  clock : Int
deriving DecidableEq

/-- One execution of the `while` loop body of
`Server::TryDispatchingPendingFuncCalls` (lines 186-231), fuelled.  Each
iteration pops the front pending state; a discarded or parent-less state is
dropped under the lock (no unlock, no pick); otherwise the lock is released
for the pick and dispatch — `arrivals.headD []` are the states concurrently
enqueued during that unlocked window, appended at the back of the deque
before the loop re-checks its condition.  On pick failure the state is
pushed back to the front and the loop breaks.  Returns the final state, the
events, and the number of loop iterations. -/
def Server.drainGo (fuel : Nat) (s : ServerState)
    (arrivals : List (List FuncCallState)) (oracles : List DrainOracle) :
    ServerState × List Event × Nat :=
  match fuel with
  | 0 => (s, [], 0)
  | fuel + 1 =>
    match s.pending with
    | [] => (s, [], 0)
    | st :: rest =>
      let func_call := st.func_call
      if fullCallId func_call ∈ s.discarded then
        let r := Server.drainGo fuel
          { s with pending := rest,
                   discarded := s.discarded.erase (fullCallId func_call) }
          arrivals oracles
        (r.1, r.2.1, r.2.2 + 1)
      else
        let async_call := st.connection_id == -1
        if !async_call && !(decide (st.connection_id ∈ s.connections)) then
          let r := Server.drainGo fuel { s with pending := rest } arrivals oracles
          (r.1, r.2.1, r.2.2 + 1)
        else
          let o := oracles.headD ⟨none, false, 0⟩
          let batch := arrivals.headD []
          match o.pick with
          | none =>
            ({ s with pending := st :: (rest ++ batch) }, [Event.pick func_call none], 1)
          | some node =>
            let res1 := (fullCallId func_call, node) :: s.nm_reservations
            let dd :=
              if async_call then
                let r := Server.DispatchAsyncFuncCall res1 func_call st.input node o.sendOk
                (r.1, r.2.1, r.2.2)
              else
                let r := Server.DispatchFuncCall res1 st.connection_id
                  (st.context.getD default) node o.sendOk
                (r.1, r.2.1, r.2.2.2)
            let dispatched := dd.1
            let res2 := dd.2.1
            let evsD := dd.2.2
            let st1 := { st with dispatch_timestamp := o.clock }
            let s1 := { s with
              pending := rest ++ batch
              nm_reservations := res2
              queueing_delay_samples :=
                s.queueing_delay_samples ++ [toInt32 (o.clock - st.recv_timestamp)] }
            let s2 :=
              if dispatched then
                let running1 := insertA s1.running (fullCallId func_call) st1
                { s1 with running := running1
                          running_requests_samples :=
                            s1.running_requests_samples ++ [running1.length] }
              else s1
            let r := Server.drainGo fuel s2 arrivals.tail oracles.tail
            (r.1, Event.pick func_call (some node) :: evsD ++ r.2.1, r.2.2 + 1)

/-- Fuel sufficient for the whole drain: every iteration consumes one deque
entry, and entries only enter via the initial deque or an arrival batch. -/
def drainFuel (s : ServerState) (arrivals : List (List FuncCallState)) : Nat :=
  s.pending.length + (arrivals.map List.length).sum

/-- `Server::TryDispatchingPendingFuncCalls` (lines 186-231). -/
def Server.TryDispatchingPendingFuncCalls (s : ServerState)
    (arrivals : List (List FuncCallState)) (oracles : List DrainOracle) :
    ServerState × List Event × Nat :=
  Server.drainGo (drainFuel s arrivals) s arrivals oracles

/-- `Server::HandleFuncCallCompleteOrFailedMessage` (lines 233-294).  Note
the order of the source: `FuncCallFinished` is called *before* the
running-map lookup; a miss logs and returns (skipping the final drain). -/
def Server.HandleFuncCallCompleteOrFailedMessage (s : ServerState) (node_id : Nat)
    (message : GatewayMessage) (payload : List Nat) (clock : Int)
    (oracles : List DrainOracle) : ServerState × List Event :=
  let func_call := message.func_call
  let s0 := { s with nm_reservations :=
    s.nm_reservations.erase (fullCallId func_call, node_id) }
  let evs0 := [Event.finished func_call node_id]
  match lookupA s0.running (fullCallId func_call) with
  | none => (s0, evs0 ++ [Event.logCannotFind func_call])
  | some st =>
    let async_call := st.connection_id == -1
    let deliver : Option (Int × FuncCallContext) :=
      if !async_call && !(decide (fullCallId func_call ∈ s0.discarded))
          && decide (st.connection_id ∈ s0.connections) then
        st.context.map (fun c => (st.connection_id, c))
      else none
    let s1 := { s0 with discarded := s0.discarded.erase (fullCallId func_call) }
    let s2 := { s1 with dispatch_overhead_samples :=
      s1.dispatch_overhead_samples
        ++ [toInt32 (clock - st.dispatch_timestamp - message.processing_time)] }
    let s3 :=
      if async_call && GatewayMessageHelper.IsFuncCallComplete message then
        match lookupA s2.per_func_stats func_call.func_id with
        | some pf =>
          let pf1 := { pf with end2end_delay_samples :=
            pf.end2end_delay_samples ++ [toInt32 (clock - st.recv_timestamp)] }
          { s2 with per_func_stats := insertA s2.per_func_stats func_call.func_id pf1 }
        | none => s2
      else s2
    let s4 := { s3 with running := eraseA s3.running (fullCallId func_call) }
    let evs1 :=
      if async_call then
        if GatewayMessageHelper.IsFuncCallFailed message
        then [Event.warnAsyncFailed func_call] else []
      else
        match deliver with
        | some (conn, c) =>
          let c1 :=
            if GatewayMessageHelper.IsFuncCallComplete message then
              { c with status := CallStatus.kSuccess, output := c.output ++ payload }
            else
              { c with status := CallStatus.kFailed }
          [Event.finish conn c1]
        | none => []
    let r := Server.TryDispatchingPendingFuncCalls s4 [] oracles
    (r.1, evs0 ++ evs1 ++ r.2.1)

/-- `Server::OnRecvEngineMessage` (lines 296-304). -/
def Server.OnRecvEngineMessage (s : ServerState) (node_id : Nat)
    (message : GatewayMessage) (payload : List Nat) (clock : Int)
    (oracles : List DrainOracle) : ServerState × List Event :=
  if GatewayMessageHelper.IsFuncCallComplete message
      || GatewayMessageHelper.IsFuncCallFailed message then
    Server.HandleFuncCallCompleteOrFailedMessage s node_id message payload clock oracles
  else
    (s, [])

/-- External events driving the server, each carrying its oracle inputs. -/
inductive Action where
  | httpCall (conn : Int) (ctx : FuncCallContext) (pick : Option Nat)
      (sendOk : Bool) (clock : Int)
  | grpcCall (conn : Int) (ctx : FuncCallContext) (pick : Option Nat)
      (sendOk : Bool) (clock : Int)
  | engineReply (node : Nat) (message : GatewayMessage) (payload : List Nat)
      (clock : Int) (oracles : List DrainOracle)
  | nodeConnected (oracles : List DrainOracle)
  | discardCall (fc : FuncCall)
  | connOpen (conn : Int)
  | connClose (conn : Int)
deriving DecidableEq

/-- One reactor callback of the server. -/
def Server.step (s : ServerState) : Action → ServerState × List Event
  | Action.httpCall conn ctx pick sendOk clock =>
    let r := Server.OnNewHttpFuncCall s conn ctx pick sendOk clock
    (r.1, r.2.2)
  | Action.grpcCall conn ctx pick sendOk clock =>
    let r := Server.OnNewGrpcFuncCall s conn ctx pick sendOk clock
    (r.1, r.2.2)
  | Action.engineReply node message payload clock oracles =>
    Server.OnRecvEngineMessage s node message payload clock oracles
  | Action.nodeConnected oracles =>
    let r := Server.TryDispatchingPendingFuncCalls s [] oracles
    (r.1, r.2.1)
  | Action.discardCall fc => (Server.DiscardFuncCall s fc, [])
  | Action.connOpen conn => ({ s with connections := insertSetI s.connections conn }, [])
  | Action.connClose conn => ({ s with connections := s.connections.erase conn }, [])

/-- Run a sequence of reactor callbacks, accumulating the event log. -/
def Server.run (s : ServerState) : List Action → ServerState × List Event
  | [] => (s, [])
  | a :: rest =>
    let r1 := Server.step s a
    let r2 := Server.run r1.1 rest
    (r2.1, r1.2 ++ r2.2)

/-! ## Observables and invariants used by the verified properties -/

/-- Recognizes a `FuncCallFinished(fc, n)` call with
`(full_call_id fc, n) = p`. -/
def isFinEv (p : Nat × Nat) : Event → Bool
  | Event.finished fc n => (fullCallId fc, n) == p
  | _ => false

/-- Recognizes a successful `PickNodeForNewFuncCall` with
`(full_call_id fc, n) = p`. -/
def isPickOkEv (p : Nat × Nat) : Event → Bool
  | Event.pick fc (some n) => (fullCallId fc, n) == p
  | _ => false

/-- Recognizes any successful pick. -/
def isPickOkAny : Event → Bool
  | Event.pick _ (some _) => true
  | _ => false

/-- Recognizes a completion-callback invocation whose context carries the
given `full_call_id`. -/
def isFinishFor (id : Nat) : Event → Bool
  | Event.finish _ c => fullCallId c.func_call == id
  | _ => false

/-- Recognizes any engine send. -/
def isSendEv : Event → Bool
  | Event.send _ _ _ _ => true
  | _ => false

/-- The `full_call_id`s of the pending deque. -/
def pendingIds (s : ServerState) : List Nat :=
  s.pending.map (fun st => fullCallId st.func_call)

/-- The keys of the running map. -/
def runningIds (s : ServerState) : List Nat :=
  keysA s.running

/-- The per-function `last_request_timestamp`, with the `-1` sentinel of a
not-yet-created entry. -/
def pfLast (s : ServerState) (f : Nat) : Int :=
  ((lookupA s.per_func_stats f).getD PerFuncStat.init).last_request_timestamp

/-- The `full_call_id` of the context a drain-loop dispatch of this pending
state would hand to `FinishFuncCall` on send failure. -/
def ctxIdOf (st : FuncCallState) : Nat :=
  fullCallId (st.context.getD default).func_call

/-- Well-formedness of one call-table record relative to the allocation
counter: wire fields reduced, `call_id` allocated below the counter. -/
def stOk (next : Nat) (st : FuncCallState) : Prop :=
  reducedFC st.func_call ∧ st.func_call.call_id < next

instance (next : Nat) (st : FuncCallState) : Decidable (stOk next st) := by
  unfold stOk; infer_instance

/-- The `full_call_id`s of a pending deque. -/
def pendIdsL (p : List FuncCallState) : List Nat :=
  p.map (fun st => fullCallId st.func_call)

/-- The inductive call-table invariant, over the four structures it
constrains: pending and running ids are mutually distinct, running keys
index their own record, every live record is well-formed w.r.t. the
allocation counter, and every live record's function already has its
lazily-created per-function stats entry. -/
def InvL (p : List FuncCallState) (r : List (Nat × FuncCallState))
    (pf : List (Nat × PerFuncStat)) (next : Nat) : Prop :=
  (pendIdsL p ++ keysA r).Nodup ∧
  (∀ st ∈ p, stOk next st) ∧
  (∀ kv ∈ r, kv.1 = fullCallId kv.2.func_call ∧ stOk next kv.2) ∧
  (∀ st ∈ p, (lookupA pf st.func_call.func_id).isSome = true) ∧
  (∀ kv ∈ r, (lookupA pf kv.2.func_call.func_id).isSome = true)

instance (p : List FuncCallState) (r : List (Nat × FuncCallState))
    (pf : List (Nat × PerFuncStat)) (next : Nat) : Decidable (InvL p r pf next) := by
  unfold InvL; infer_instance

/-- The call-table invariant of a server state. -/
def Inv (s : ServerState) : Prop :=
  InvL s.pending s.running s.per_func_stats s.next_call_id

instance (s : ServerState) : Decidable (Inv s) := by
  unfold Inv; infer_instance

/-- Number of new-call actions (each allocates at most one call id). -/
def countNewCalls : List Action → Nat
  | [] => 0
  | Action.httpCall _ _ _ _ _ :: rest => countNewCalls rest + 1
  | Action.grpcCall _ _ _ _ _ :: rest => countNewCalls rest + 1
  | _ :: rest => countNewCalls rest

/-- A well-matched engine reply: it concerns a call still in the running
map and a reservation the `NodeManager` actually holds for that node (no
late, duplicate or misattributed replies). -/
def wmActionB (s : ServerState) : Action → Bool
  | Action.engineReply node message _ _ _ =>
    if GatewayMessageHelper.IsFuncCallComplete message
        || GatewayMessageHelper.IsFuncCallFailed message then
      (lookupA s.running (fullCallId message.func_call)).isSome
        && decide ((fullCallId message.func_call, node) ∈ s.nm_reservations)
    else true
  | _ => true

/-- Every engine reply of the trace is well-matched at the state where it
is processed. -/
def wmRunB : ServerState → List Action → Bool
  | _, [] => true
  | s, a :: rest => wmActionB s a && wmRunB (Server.step s a).1 rest

/-- Every queued synchronous state would hand the drain loop's dispatch
the same `FuncCall` it is keyed under (true of every state the server
itself enqueues: `OnNewFuncCallCommon` stores the context whose
`func_call` it just set). -/
def PendCtxOk (s : ServerState) : Prop :=
  ∀ st ∈ s.pending, st.connection_id ≠ -1 →
    (st.context.getD default).func_call = st.func_call

instance (s : ServerState) : Decidable (PendCtxOk s) := by
  unfold PendCtxOk; infer_instance

/-! ## Concrete sample data for witnesses and counterexamples -/

/-- A small function config: two plain functions and one gRPC service. -/
def sampleCfg : FuncConfig :=
  ⟨[⟨7, "hello", false, []⟩, ⟨9, "greet", false, []⟩, ⟨11, "svc", true, [("Say", 3)]⟩]⟩

/-- A plain synchronous HTTP request context. -/
def sampleCtx : FuncCallContext :=
  { func_name := "hello", method_name := "", is_async := false, input := [104, 105],
    status := CallStatus.kPending, output := [], func_call := ⟨0, 0, 0, 0⟩ }

/-- The same request, fire-and-forget. -/
def sampleAsyncCtx : FuncCallContext :=
  { sampleCtx with is_async := true }

/-- The `FuncCall` the first accepted `hello` call allocates. -/
def sampleFc : FuncCall :=
  FuncCallHelper.New 7 0 1

/-- A completion reply for that call. -/
def sampleMsg : GatewayMessage :=
  ⟨GMType.funcCallComplete, sampleFc, 0, 0⟩

/-- The gateway right after startup with `sampleCfg`. -/
def sampleInit : ServerState :=
  initServer sampleCfg

/-- A queued async call. -/
def sampleStA : FuncCallState :=
  ⟨⟨7, 0, 0, 1⟩, -1, none, 10, 0, [1]⟩

/-- Another queued async call (a concurrent arrival). -/
def sampleStB : FuncCallState :=
  ⟨⟨7, 0, 0, 2⟩, -1, none, 11, 0, [2]⟩

/-- A gateway with one queued call. -/
def samplePendState : ServerState :=
  { sampleInit with pending := [sampleStA] }

/-- `sampleCtx` with its allocated `FuncCall` filled in. -/
def sampleCtxFc : FuncCallContext :=
  { sampleCtx with func_call := sampleFc }

/-- The async variant with its allocated `FuncCall` filled in. -/
def sampleAsyncCtxFc : FuncCallContext :=
  { sampleAsyncCtx with func_call := sampleFc }

/-- A request for the second configured function. -/
def sampleCtxGreet : FuncCallContext :=
  { sampleCtx with func_name := "greet" }

/-- Two calls at a frozen clock: `hello` then `greet`, both at t = 100. -/
def tsPrefix : List Action :=
  [Action.httpCall 0 sampleCtx none true 100,
   Action.httpCall 0 sampleCtxGreet none true 100]

/-- The same, followed by a second `hello` call still at t = 100. -/
def tsActs : List Action :=
  tsPrefix ++ [Action.httpCall 0 sampleCtx none true 100]

/-- A trace leaving one call queued (`hello`, no node) and one call
running (`greet`, dispatched to node 2). -/
def invActs : List Action :=
  [Action.connOpen 0,
   Action.httpCall 0 sampleCtx none true 100,
   Action.httpCall 0 sampleCtxGreet (some 2) true 150]

/-- A trace in which the engine delivers the completion reply for the same
call twice. -/
def dupActs : List Action :=
  [Action.connOpen 0,
   Action.httpCall 0 sampleCtx (some 5) true 100,
   Action.engineReply 5 sampleMsg [] 200 [],
   Action.engineReply 5 sampleMsg [] 300 []]

/-- A well-matched trace: one dispatched call and its single reply. -/
def wmActs : List Action :=
  [Action.connOpen 0,
   Action.httpCall 0 sampleCtx (some 5) true 100,
   Action.engineReply 5 sampleMsg [] 200 []]

/-! ## Association-list lemmas -/

theorem lookupA_filter_ne {α : Type} (m : List (Nat × α)) (k g : Nat) (h : g ≠ k) :
    lookupA (m.filter (fun e => !(e.1 == k))) g = lookupA m g := by
  induction m with
  | nil => rfl
  | cons hd tl ih =>
    by_cases hk : hd.1 = k
    · rw [List.filter_cons_of_neg (by simp [hk])]
      have hne : hd.1 ≠ g := by rw [hk]; exact fun hh => h hh.symm
      rw [ih]
      simp [lookupA, hne]
    · rw [List.filter_cons_of_pos (by simp [hk])]
      simp [lookupA, ih]

theorem lookupA_insertA {α : Type} (m : List (Nat × α)) (k g : Nat) (v : α) :
    lookupA (insertA m k v) g = if g = k then some v else lookupA m g := by
  by_cases h : g = k
  · subst h; simp [insertA, lookupA]
  · have hk : k ≠ g := fun hh => h hh.symm
    simp only [insertA, lookupA, if_neg hk, if_neg h]
    exact lookupA_filter_ne m k g h

theorem lookupA_eraseA {α : Type} (m : List (Nat × α)) (k g : Nat) :
    lookupA (eraseA m k) g = if g = k then none else lookupA m g := by
  by_cases h : g = k
  · subst h
    simp only [eraseA, if_pos rfl]
    induction m with
    | nil => rfl
    | cons hd tl ih =>
      by_cases hk : hd.1 = g
      · rw [List.filter_cons_of_neg (by simp [hk])]; exact ih
      · rw [List.filter_cons_of_pos (by simp [hk])]
        simp [lookupA, hk, ih]
  · rw [if_neg h]
    exact lookupA_filter_ne m k g h

theorem lookupA_isSome_insertA {α : Type} (m : List (Nat × α)) (k g : Nat) (v : α)
    (h : (lookupA m g).isSome = true) :
    (lookupA (insertA m k v) g).isSome = true := by
  rw [lookupA_insertA]
  by_cases hg : g = k <;> simp [hg, h]

theorem map_fst_filter_ne {α : Type} (m : List (Nat × α)) (k : Nat) :
    (m.filter (fun e => !(e.1 == k))).map Prod.fst
      = (m.map Prod.fst).filter (fun x => !(x == k)) := by
  induction m with
  | nil => rfl
  | cons hd tl ih =>
    by_cases hk : hd.1 = k
    · rw [List.filter_cons_of_neg (by simp [hk]), List.map_cons,
        List.filter_cons_of_neg (by simp [hk])]
      exact ih
    · rw [List.filter_cons_of_pos (by simp [hk]), List.map_cons, List.map_cons,
        List.filter_cons_of_pos (by simp [hk]), ih]

theorem keysA_insertA {α : Type} (m : List (Nat × α)) (k : Nat) (v : α) :
    keysA (insertA m k v) = k :: (keysA m).filter (fun x => !(x == k)) := by
  simp only [keysA, insertA, List.map_cons, map_fst_filter_ne]

theorem keysA_eraseA {α : Type} (m : List (Nat × α)) (k : Nat) :
    keysA (eraseA m k) = (keysA m).filter (fun x => !(x == k)) := by
  simp only [keysA, eraseA, map_fst_filter_ne]

theorem mem_of_mem_eraseA {α : Type} (m : List (Nat × α)) (k : Nat)
    (kv : Nat × α) (h : kv ∈ eraseA m k) : kv ∈ m :=
  List.mem_of_mem_filter h

theorem keysA_eraseA_sublist {α : Type} (m : List (Nat × α)) (k : Nat) :
    (keysA (eraseA m k)).Sublist (keysA m) := by
  simpa [keysA, eraseA] using List.Sublist.map Prod.fst (List.filter_sublist m)

/-! ## C2: the drain loop is bounded by pending entries plus arrivals -/

theorem drainGo_iter_le (fuel : Nat) :
    ∀ (s : ServerState) (arrivals : List (List FuncCallState)) (oracles : List DrainOracle),
    (Server.drainGo fuel s arrivals oracles).2.2
      ≤ s.pending.length + (arrivals.map List.length).sum := by
  induction fuel with
  | zero => intro s arrivals oracles; simp [Server.drainGo]
  | succ fuel ih =>
    intro s arrivals oracles
    rw [Server.drainGo]
    cases hp : s.pending with
    | nil => simp
    | cons st rest =>
      simp only [List.length_cons]
      split
      · exact le_trans (Nat.succ_le_succ (ih _ arrivals oracles)) (by simp; omega)
      · split
        · exact le_trans (Nat.succ_le_succ (ih _ arrivals oracles)) (by simp; omega)
        · split
          · simp; omega
          · refine le_trans (Nat.succ_le_succ (ih _ arrivals.tail oracles.tail)) ?_
            cases arrivals with
            | nil =>
              simp [apply_ite ServerState.pending] <;> omega
            | cons b bs =>
              simp [apply_ite ServerState.pending, List.length_append] <;> omega

/-- C2 (amended): every drain performs at most `|pending at entry|` plus
`|concurrent arrivals|` iterations; with no concurrent arrivals the drain
is bounded by the pending size sampled at lock time. -/
theorem C2_theorem (s : ServerState) (arrivals : List (List FuncCallState))
    (oracles : List DrainOracle) :
    (Server.TryDispatchingPendingFuncCalls s arrivals oracles).2.2
      ≤ s.pending.length + (arrivals.map List.length).sum ∧
    (Server.TryDispatchingPendingFuncCalls s [] oracles).2.2 ≤ s.pending.length := by
  refine ⟨drainGo_iter_le _ s arrivals oracles, ?_⟩
  simpa using drainGo_iter_le (drainFuel s []) s [] oracles

/-- C2 counterexample: with one entry pending at entry, an arrival injected
during the unlocked dispatch window makes the drain run two iterations —
more than the pending size sampled when the lock was taken. -/
theorem C2_counterexample :
    samplePendState.pending.length = 1 ∧
    (Server.TryDispatchingPendingFuncCalls samplePendState [[sampleStB]]
      [⟨some 0, true, 20⟩, ⟨some 0, true, 21⟩]).2.2 = 2 ∧
    ¬ ((Server.TryDispatchingPendingFuncCalls samplePendState [[sampleStB]]
      [⟨some 0, true, 20⟩, ⟨some 0, true, 21⟩]).2.2 ≤ samplePendState.pending.length) := by
  refine ⟨by decide, by decide, by decide⟩

/-! ## C3: queueing-delay samples of the drain loop -/

theorem drainGo_queueing (fuel : Nat) :
    ∀ (s : ServerState) (arrivals : List (List FuncCallState)) (oracles : List DrainOracle),
    (Server.drainGo fuel s arrivals oracles).1.queueing_delay_samples.length
      = s.queueing_delay_samples.length
        + (Server.drainGo fuel s arrivals oracles).2.1.countP isPickOkAny := by
  induction fuel with
  | zero => intro s arrivals oracles; simp [Server.drainGo]
  | succ fuel ih =>
    intro s arrivals oracles
    rw [Server.drainGo]
    cases hp : s.pending with
    | nil => simp
    | cons st rest =>
      simp only []
      split
      · rw [ih]
      · split
        · rw [ih]
        · split
          · simp [isPickOkAny]
          · rw [ih]
            simp only [Server.DispatchAsyncFuncCall, Server.DispatchFuncCall]
            split <;> split <;>
              simp [isPickOkAny, List.countP_cons, List.countP_append,
                apply_ite ServerState.queueing_delay_samples,
                List.length_append] <;> omega

/-- C3 (amended): the drain records exactly one `queueing_delay` sample per
queued call for which a node was picked — whether or not the subsequent
engine send succeeds (the sample is taken before the `dispatched` check). -/
theorem C3_theorem (s : ServerState) (arrivals : List (List FuncCallState))
    (oracles : List DrainOracle) :
    (Server.TryDispatchingPendingFuncCalls s arrivals oracles).1.queueing_delay_samples.length
      = s.queueing_delay_samples.length
        + (Server.TryDispatchingPendingFuncCalls s arrivals oracles).2.1.countP isPickOkAny :=
  drainGo_queueing _ s arrivals oracles

/-- C3 counterexample: a queued call whose node is picked but whose engine
send fails still records a `queueing_delay` sample (the send event has
`ok = false` and nothing enters the running map), refuting "no sample is
recorded for a queued call whose send fails". -/
theorem C3_counterexample :
    (Server.TryDispatchingPendingFuncCalls samplePendState []
      [⟨some 0, false, 20⟩]).1.queueing_delay_samples = [10] ∧
    (Server.TryDispatchingPendingFuncCalls samplePendState []
      [⟨some 0, false, 20⟩]).1.running = [] ∧
    (Server.TryDispatchingPendingFuncCalls samplePendState []
      [⟨some 0, false, 20⟩]).2.1.countP isSendEv = 1 ∧
    Event.send 0 ⟨7, 0, 0, 1⟩ [1] false
      ∈ (Server.TryDispatchingPendingFuncCalls samplePendState []
          [⟨some 0, false, 20⟩]).2.1 := by
  refine ⟨by decide, by decide, by decide, by decide⟩

/-! ## C7: unknown functions and unknown gRPC methods are rejected -/

/-- C7: a new call whose function name is not in the config — and, for
gRPC, whenever the entry is not a gRPC service or its method map does not
contain the method name — sets `kNotFound` on the context, hands it
straight back to the parent connection with the result of the whole
operation being `(s, ctx·kNotFound, [finish])`: the server state (in
particular `next_call_id` and every table) is unchanged and no engine
message is sent. -/
theorem C7_theorem (s : ServerState) (conn : Int) (ctx : FuncCallContext)
    (pick : Option Nat) (sendOk : Bool) (clock : Int) :
    (s.func_config.find_by_func_name ctx.func_name = none →
      Server.OnNewHttpFuncCall s conn ctx pick sendOk clock
        = (s, { ctx with status := CallStatus.kNotFound },
            [Event.finish conn { ctx with status := CallStatus.kNotFound }]) ∧
      Server.OnNewGrpcFuncCall s conn ctx pick sendOk clock
        = (s, { ctx with status := CallStatus.kNotFound },
            [Event.finish conn { ctx with status := CallStatus.kNotFound }])) ∧
    (∀ e, s.func_config.find_by_func_name ctx.func_name = some e →
      (!e.is_grpc_service
        || (e.grpc_method_ids.find? (fun m => m.1 == ctx.method_name)).isNone) = true →
      Server.OnNewGrpcFuncCall s conn ctx pick sendOk clock
        = (s, { ctx with status := CallStatus.kNotFound },
            [Event.finish conn { ctx with status := CallStatus.kNotFound }])) := by
  constructor
  · intro h
    constructor
    · simp only [Server.OnNewHttpFuncCall, h]
    · simp only [Server.OnNewGrpcFuncCall, h]
  · intro e he hbad
    simp only [Server.OnNewGrpcFuncCall, he, hbad, if_true]

/-- C7 witness: a call to the unknown function `bye` is rejected without
touching the state, and a gRPC call to the known but non-gRPC function
`hello` is rejected the same way. -/
theorem C7_witness :
    Server.OnNewHttpFuncCall sampleInit 0 { sampleCtx with func_name := "bye" }
        (some 5) true 100
      = (sampleInit,
          { sampleCtx with func_name := "bye", status := CallStatus.kNotFound },
          [Event.finish 0
            { sampleCtx with func_name := "bye", status := CallStatus.kNotFound }]) ∧
    Server.OnNewGrpcFuncCall sampleInit 0 sampleCtx (some 5) true 100
      = (sampleInit, { sampleCtx with status := CallStatus.kNotFound },
          [Event.finish 0 { sampleCtx with status := CallStatus.kNotFound }]) :=
  ⟨((C7_theorem sampleInit 0 { sampleCtx with func_name := "bye" }
      (some 5) true 100).1 (by decide)).1,
   (C7_theorem sampleInit 0 sampleCtx (some 5) true 100).2
      ⟨7, "hello", false, []⟩ (by decide) (by decide)⟩

/-! ## C8: request-timestamp monotonicity -/

theorem common_last (s : ServerState) (conn : Int) (ctx : FuncCallContext)
    (pick : Option Nat) (sendOk : Bool) (clock : Int) :
    (Server.OnNewFuncCallCommon s conn ctx pick sendOk clock).1.last_request_timestamp
      = (if clock ≤ s.last_request_timestamp then s.last_request_timestamp + 1 else clock) := by
  cases pick <;> cases hA : ctx.is_async <;> cases sendOk <;>
    simp [Server.OnNewFuncCallCommon, Server.TickNewFuncCall,
      Server.DispatchFuncCall, Server.DispatchAsyncFuncCall, hA]

theorem common_pfLast_eq (s : ServerState) (conn : Int) (ctx : FuncCallContext)
    (pick : Option Nat) (sendOk : Bool) (clock : Int) :
    pfLast (Server.OnNewFuncCallCommon s conn ctx pick sendOk clock).1 ctx.func_call.func_id
      = (if (if clock ≤ s.last_request_timestamp then s.last_request_timestamp + 1 else clock)
            ≤ pfLast s ctx.func_call.func_id
         then pfLast s ctx.func_call.func_id + 1
         else (if clock ≤ s.last_request_timestamp then s.last_request_timestamp + 1 else clock)) := by
  cases pick <;> cases hA : ctx.is_async <;> cases sendOk <;>
    simp [Server.OnNewFuncCallCommon, Server.TickNewFuncCall,
      Server.DispatchFuncCall, Server.DispatchAsyncFuncCall, hA,
      pfLast, lookupA_insertA]

theorem common_pfLast_ne (s : ServerState) (conn : Int) (ctx : FuncCallContext)
    (pick : Option Nat) (sendOk : Bool) (clock : Int) (g : Nat)
    (hg : g ≠ ctx.func_call.func_id) :
    pfLast (Server.OnNewFuncCallCommon s conn ctx pick sendOk clock).1 g = pfLast s g := by
  cases pick <;> cases hA : ctx.is_async <;> cases sendOk <;>
    simp [Server.OnNewFuncCallCommon, Server.TickNewFuncCall,
      Server.DispatchFuncCall, Server.DispatchAsyncFuncCall, hA,
      pfLast, lookupA_insertA, hg]

/-- C8 (amended): over every new call, the global `last_request_timestamp`
and the called function's per-function timestamp strictly increase; the
global one is bumped to `last + 1` exactly when the sampled clock does not
exceed it, while the per-function comparison uses the globally-adjusted
timestamp (not the raw clock) as its candidate — bumping to per-func
`last + 1` when that candidate does not exceed the stored per-func value.
Timestamps of other functions are untouched. -/
theorem C8_theorem (s : ServerState) (conn : Int) (ctx : FuncCallContext)
    (pick : Option Nat) (sendOk : Bool) (clock : Int) (g : Nat)
    (hg : g ≠ ctx.func_call.func_id) :
    s.last_request_timestamp
        < (Server.OnNewFuncCallCommon s conn ctx pick sendOk clock).1.last_request_timestamp ∧
    (Server.OnNewFuncCallCommon s conn ctx pick sendOk clock).1.last_request_timestamp
      = (if clock ≤ s.last_request_timestamp then s.last_request_timestamp + 1 else clock) ∧
    pfLast s ctx.func_call.func_id
        < pfLast (Server.OnNewFuncCallCommon s conn ctx pick sendOk clock).1
            ctx.func_call.func_id ∧
    pfLast (Server.OnNewFuncCallCommon s conn ctx pick sendOk clock).1 ctx.func_call.func_id
      = (if (if clock ≤ s.last_request_timestamp then s.last_request_timestamp + 1 else clock)
            ≤ pfLast s ctx.func_call.func_id
         then pfLast s ctx.func_call.func_id + 1
         else (if clock ≤ s.last_request_timestamp then s.last_request_timestamp + 1 else clock)) ∧
    pfLast (Server.OnNewFuncCallCommon s conn ctx pick sendOk clock).1 g = pfLast s g := by
  have h1 := common_last s conn ctx pick sendOk clock
  have h2 := common_pfLast_eq s conn ctx pick sendOk clock
  have h3 := common_pfLast_ne s conn ctx pick sendOk clock g hg
  refine ⟨?_, h1, ?_, h2, h3⟩
  · rw [h1]; split <;> omega
  · rw [h2]; split <;> [omega; (split <;> omega)]

/-- C8 witness: a concrete accepted call strictly advances the global
timestamp and leaves the untouched function 9 unchanged. -/
theorem C8_witness :
    sampleInit.last_request_timestamp
        < (Server.OnNewFuncCallCommon sampleInit 0 sampleCtxFc
            (some 5) true 100).1.last_request_timestamp ∧
    pfLast (Server.OnNewFuncCallCommon sampleInit 0 sampleCtxFc (some 5) true 100).1 9
      = pfLast sampleInit 9 :=
  ⟨(C8_theorem sampleInit 0 sampleCtxFc (some 5) true 100 9 (by decide)).1,
   (C8_theorem sampleInit 0 sampleCtxFc (some 5) true 100 9 (by decide)).2.2.2.2⟩

/-- C8 counterexample: the claim's bump rule fails for per-function
timestamps.  After `hello` and `greet` are both called at clock 100, a
third call to `hello` again samples clock 100, which does not exceed the
stored per-func value 100 — yet the recorded value becomes 102 (the
globally-adjusted candidate), not `last + 1 = 101`. -/
theorem C8_counterexample :
    pfLast (Server.run sampleInit tsPrefix).1 7 = 100 ∧
    (100 : Int) ≤ pfLast (Server.run sampleInit tsPrefix).1 7 ∧
    pfLast (Server.run sampleInit tsActs).1 7 = 102 ∧
    pfLast (Server.run sampleInit tsActs).1 7
      ≠ pfLast (Server.run sampleInit tsPrefix).1 7 + 1 := by
  refine ⟨by decide, by decide, by decide, by decide⟩

/-! ## C5: async call acceptance -/

/-- C5: for an async call, when no node is picked the input is copied into
the queued state's owned buffer, the state is appended to pending, and the
caller immediately sees `kSuccess`; when a node is picked the caller sees
`kSuccess` exactly when the send succeeds and `kNotFound` when it fails,
and the call is in the running map if and only if the send succeeded. -/
theorem C5_theorem (s : ServerState) (conn : Int) (ctx : FuncCallContext)
    (pick : Option Nat) (sendOk : Bool) (clock : Int) (n : Nat)
    (hA : ctx.is_async = true)
    (hfresh : lookupA s.running (fullCallId ctx.func_call) = none) :
    (pick = none →
      (Server.OnNewFuncCallCommon s conn ctx pick sendOk clock).2.1.status
          = CallStatus.kSuccess ∧
      (Server.OnNewFuncCallCommon s conn ctx pick sendOk clock).1.pending
        = s.pending ++ [⟨ctx.func_call, -1, none, clock, 0, ctx.input⟩] ∧
      (Server.OnNewFuncCallCommon s conn ctx pick sendOk clock).1.running = s.running ∧
      Event.finish conn (Server.OnNewFuncCallCommon s conn ctx pick sendOk clock).2.1
        ∈ (Server.OnNewFuncCallCommon s conn ctx pick sendOk clock).2.2) ∧
    (pick = some n →
      ((Server.OnNewFuncCallCommon s conn ctx pick sendOk clock).2.1.status
        = if sendOk then CallStatus.kSuccess else CallStatus.kNotFound) ∧
      ((lookupA (Server.OnNewFuncCallCommon s conn ctx pick sendOk clock).1.running
          (fullCallId ctx.func_call)).isSome = sendOk) ∧
      (Server.OnNewFuncCallCommon s conn ctx pick sendOk clock).1.pending = s.pending ∧
      Event.finish conn (Server.OnNewFuncCallCommon s conn ctx pick sendOk clock).2.1
        ∈ (Server.OnNewFuncCallCommon s conn ctx pick sendOk clock).2.2) := by
  constructor
  · rintro rfl
    simp [Server.OnNewFuncCallCommon, Server.TickNewFuncCall, hA]
  · rintro rfl
    cases sendOk <;>
      simp [Server.OnNewFuncCallCommon, Server.TickNewFuncCall,
        Server.DispatchAsyncFuncCall, hA, lookupA_insertA, hfresh]

/-- C5 witness: a queued async call is accepted with `kSuccess`, and an
async call whose send fails is not recorded in running. -/
theorem C5_witness :
    (Server.OnNewFuncCallCommon sampleInit 0 sampleAsyncCtxFc none true 100).2.1.status
      = CallStatus.kSuccess ∧
    (lookupA (Server.OnNewFuncCallCommon sampleInit 0 sampleAsyncCtxFc
        (some 5) false 100).1.running (fullCallId sampleAsyncCtxFc.func_call)).isSome
      = false :=
  ⟨((C5_theorem sampleInit 0 sampleAsyncCtxFc none true 100 5
      (by decide) (by decide)).1 rfl).1,
   ((C5_theorem sampleInit 0 sampleAsyncCtxFc (some 5) false 100 5
      (by decide) (by decide)).2 rfl).2.1⟩

/-! ## C6: sync dispatch failure -/

/-- C6: for a synchronous new call where a node is picked but the engine
send fails, `NodeManager::FuncCallFinished` is called exactly once for that
`(call, node)` pair, the context status becomes `kNotFound` and the parent
connection's completion callback is invoked, and the call ends up in
neither the running map nor the pending queue. -/
theorem C6_theorem (s : ServerState) (conn : Int) (ctx : FuncCallContext)
    (n : Nat) (clock : Int)
    (hA : ctx.is_async = false)
    (hfreshR : lookupA s.running (fullCallId ctx.func_call) = none)
    (hfreshP : fullCallId ctx.func_call ∉ pendingIds s) :
    (Server.OnNewFuncCallCommon s conn ctx (some n) false clock).2.2.countP
        (isFinEv (fullCallId ctx.func_call, n)) = 1 ∧
    (Server.OnNewFuncCallCommon s conn ctx (some n) false clock).2.1.status
      = CallStatus.kNotFound ∧
    Event.finish conn (Server.OnNewFuncCallCommon s conn ctx (some n) false clock).2.1
      ∈ (Server.OnNewFuncCallCommon s conn ctx (some n) false clock).2.2 ∧
    lookupA (Server.OnNewFuncCallCommon s conn ctx (some n) false clock).1.running
        (fullCallId ctx.func_call) = none ∧
    fullCallId ctx.func_call
      ∉ pendingIds (Server.OnNewFuncCallCommon s conn ctx (some n) false clock).1 := by
  refine ⟨?_, ?_, ?_, ?_, ?_⟩ <;>
    simp [Server.OnNewFuncCallCommon, Server.TickNewFuncCall,
      Server.DispatchFuncCall, hA, isFinEv, pendingIds, hfreshP, hfreshR,
      List.countP_cons]
  intro x hx hEq
  exact hfreshP (by simp only [pendingIds]; exact List.mem_map.mpr ⟨x, hx, hEq⟩)

/-- C6 witness: the first accepted `hello` call with a failing send
releases one reservation and surfaces `kNotFound`. -/
theorem C6_witness :
    (Server.OnNewFuncCallCommon sampleInit 0 sampleCtxFc (some 5) false 100).2.2.countP
        (isFinEv (fullCallId sampleCtxFc.func_call, 5)) = 1 ∧
    (Server.OnNewFuncCallCommon sampleInit 0 sampleCtxFc (some 5) false 100).2.1.status
      = CallStatus.kNotFound :=
  ⟨(C6_theorem sampleInit 0 sampleCtxFc 5 100 (by decide) (by decide) (by decide)).1,
   (C6_theorem sampleInit 0 sampleCtxFc 5 100 (by decide) (by decide) (by decide)).2.1⟩

/-! ## C4: discard safety -/

theorem length_eraseA_of_lookup {α : Type} (m : List (Nat × α)) (k : Nat) :
    ∀ (v : α), (keysA m).Nodup → lookupA m k = some v →
    (eraseA m k).length + 1 = m.length := by
  induction m with
  | nil => intro v _ h; simp [lookupA] at h
  | cons hd tl ih =>
    intro v hnd h
    by_cases hk : hd.1 = k
    · have hknotin : ∀ e ∈ tl, ¬(e.1 = k) := by
        intro e he heq
        have h1 : hd.1 ∉ keysA tl := (List.nodup_cons.mp (by simpa [keysA] using hnd)).1
        exact h1 (by simpa [keysA, hk, ← heq] using List.mem_map_of_mem Prod.fst he)
      have hfe : tl.filter (fun e => !(e.1 == k)) = tl :=
        List.filter_eq_self.mpr (fun e he => by simpa using hknotin e he)
      simp only [eraseA]
      rw [List.filter_cons_of_neg (by simp [hk]), hfe]
      simp
    · have hnd' : (keysA tl).Nodup := (List.nodup_cons.mp (by simpa [keysA] using hnd)).2
      have h' : lookupA tl k = some v := by simpa [lookupA, hk] using h
      have := ih v hnd' h'
      simp only [eraseA] at this ⊢
      rw [List.filter_cons_of_pos (by simp [hk])]
      simp only [List.length_cons]
      omega

theorem drainGo_finishFor (fuel : Nat) :
    ∀ (s : ServerState) (oracles : List DrainOracle) (id : Nat),
    (∀ st ∈ s.pending, ctxIdOf st ≠ id) →
    (Server.drainGo fuel s [] oracles).2.1.countP (isFinishFor id) = 0 := by
  induction fuel with
  | zero => intro s oracles id hp; simp [Server.drainGo]
  | succ fuel ih =>
    intro s oracles id hp
    rw [Server.drainGo]
    cases hpend : s.pending with
    | nil => simp
    | cons st rest =>
      have hhd : ctxIdOf st ≠ id := hp st (by rw [hpend]; exact List.mem_cons_self st rest)
      have hrest : ∀ x ∈ rest, ctxIdOf x ≠ id :=
        fun x hx => hp x (by rw [hpend]; exact List.mem_cons_of_mem st hx)
      simp only []
      split
      · exact ih _ oracles id hrest
      · split
        · exact ih _ oracles id hrest
        · split
          · simp [isFinishFor]
          · have hbeq : (fullCallId (st.context.getD default).func_call == id) = false := by
              simpa [ctxIdOf] using hhd
            rw [List.countP_eq_zero]
            intro e he
            rcases List.mem_cons.mp he with heq | he1
            · simp [heq, isFinishFor]
            rcases List.mem_append.mp he1 with he2 | he3
            · revert he2
              simp only [Server.DispatchAsyncFuncCall, Server.DispatchFuncCall]
              split <;> split <;>
                · intro he2
                  simp only [List.mem_cons, List.not_mem_nil, or_false] at he2
                  first
                  | (rcases he2 with h2 | h2 | h2 <;> simp [h2, isFinishFor, hbeq])
                  | (rcases he2 with h2 | h2 <;> simp [h2, isFinishFor, hbeq])
                  | simp [he2, isFinishFor, hbeq]
            · exact List.countP_eq_zero.mp
                (ih _ oracles.tail id (fun x hx => hrest x
                  (by simpa [apply_ite ServerState.pending] using hx))) e he3

theorem drainGo_running_not_mem (fuel : Nat) :
    ∀ (s : ServerState) (oracles : List DrainOracle) (id : Nat),
    (∀ st ∈ s.pending, fullCallId st.func_call ≠ id) →
    lookupA s.running id = none →
    lookupA (Server.drainGo fuel s [] oracles).1.running id = none := by
  induction fuel with
  | zero => intro s oracles id hp hr; simpa [Server.drainGo] using hr
  | succ fuel ih =>
    intro s oracles id hp hr
    rw [Server.drainGo]
    cases hpend : s.pending with
    | nil => simpa using hr
    | cons st rest =>
      have hhd : fullCallId st.func_call ≠ id :=
        hp st (by rw [hpend]; exact List.mem_cons_self st rest)
      have hrest : ∀ x ∈ rest, fullCallId x.func_call ≠ id :=
        fun x hx => hp x (by rw [hpend]; exact List.mem_cons_of_mem st hx)
      simp only []
      split
      · exact ih _ oracles id hrest hr
      · split
        · exact ih _ oracles id hrest hr
        · split
          · simpa using hr
          · apply ih _ oracles.tail id
            · intro x hx
              exact hrest x (by simpa [apply_ite ServerState.pending] using hx)
            · simp only [Server.DispatchAsyncFuncCall, Server.DispatchFuncCall]
              split_ifs <;> simp [lookupA_insertA, Ne.symm hhd, hr]

theorem drainGo_discarded_not_mem (fuel : Nat) :
    ∀ (s : ServerState) (oracles : List DrainOracle) (id : Nat),
    id ∉ s.discarded →
    id ∉ (Server.drainGo fuel s [] oracles).1.discarded := by
  induction fuel with
  | zero => intro s oracles id hd; simpa [Server.drainGo] using hd
  | succ fuel ih =>
    intro s oracles id hd
    rw [Server.drainGo]
    cases hpend : s.pending with
    | nil => simpa using hd
    | cons st rest =>
      simp only []
      split
      · exact ih _ oracles id (fun hmem => hd (List.mem_of_mem_erase hmem))
      · split
        · exact ih _ oracles id hd
        · split
          · simpa using hd
          · apply ih _ oracles.tail id
            simpa [apply_ite ServerState.discarded] using hd

/-- C4: once a running synchronous call has been discarded, processing its
engine reply never invokes the parent connection's completion callback for
that id (neither directly nor through the post-reply drain), the id leaves
the running map (shrinking it by one when nothing is waiting to be
drained), and the id is removed from the discarded set. -/
theorem C4_theorem (s : ServerState) (node : Nat) (message : GatewayMessage)
    (payload : List Nat) (clock : Int) (oracles : List DrainOracle)
    (st : FuncCallState)
    (hrun : lookupA s.running (fullCallId message.func_call) = some st)
    (hsync : st.connection_id ≠ -1)
    (hdisc : fullCallId message.func_call ∈ s.discarded)
    (hndD : s.discarded.Nodup)
    (hndR : (keysA s.running).Nodup)
    (hpendCtx : ∀ x ∈ s.pending, ctxIdOf x ≠ fullCallId message.func_call)
    (hpendId : ∀ x ∈ s.pending, fullCallId x.func_call ≠ fullCallId message.func_call) :
    (Server.HandleFuncCallCompleteOrFailedMessage s node message payload clock
        oracles).2.countP (isFinishFor (fullCallId message.func_call)) = 0 ∧
    lookupA (Server.HandleFuncCallCompleteOrFailedMessage s node message payload clock
        oracles).1.running (fullCallId message.func_call) = none ∧
    fullCallId message.func_call
      ∉ (Server.HandleFuncCallCompleteOrFailedMessage s node message payload clock
          oracles).1.discarded ∧
    (s.pending = [] →
      (Server.HandleFuncCallCompleteOrFailedMessage s node message payload clock
          oracles).1.running.length + 1 = s.running.length) := by
  have hb : (st.connection_id == -1) = false := by
    simpa using hsync
  have herase : lookupA (eraseA s.running (fullCallId message.func_call))
      (fullCallId message.func_call) = none := by
    simp [lookupA_eraseA]
  constructor
  · simp only [Server.HandleFuncCallCompleteOrFailedMessage, hrun, hb, hdisc,
      Server.TryDispatchingPendingFuncCalls]
    simp [isFinishFor, List.countP_append, List.countP_cons]
    intro a ha
    have h0 : ¬ (isFinishFor (fullCallId message.func_call) a = true) := by
      refine List.countP_eq_zero.mp (drainGo_finishFor _ _ oracles _ ?_) a ha
      intro x hx
      exact hpendCtx x hx
    simpa [isFinishFor] using h0
  constructor
  · simp only [Server.HandleFuncCallCompleteOrFailedMessage, hrun, hb, hdisc,
      Server.TryDispatchingPendingFuncCalls]
    simp only [Bool.not_false, Bool.false_and, Bool.and_false]
    exact drainGo_running_not_mem _ _ _ _ hpendId herase
  constructor
  · simp only [Server.HandleFuncCallCompleteOrFailedMessage, hrun, hb, hdisc,
      Server.TryDispatchingPendingFuncCalls]
    exact drainGo_discarded_not_mem _ _ _ _
      (hndD.mem_erase_iff.not.mpr (by simp))
  · intro hpnil
    simp only [Server.HandleFuncCallCompleteOrFailedMessage, hrun, hb, hdisc,
      Server.TryDispatchingPendingFuncCalls, drainFuel, hpnil]
    simp [Server.drainGo, length_eraseA_of_lookup s.running
      (fullCallId message.func_call) st hndR hrun]

/-- C4 witness: one discarded running call, its completion reply arrives —
no callback, the running map empties, the discarded set empties. -/
theorem C4_witness :
    (Server.HandleFuncCallCompleteOrFailedMessage
        { sampleInit with
            running := [(fullCallId sampleFc, ⟨sampleFc, 3, some sampleCtxFc, 10, 10, []⟩)]
            discarded := [fullCallId sampleFc]
            connections := [3] }
        5 sampleMsg [42] 200 []).2.countP (isFinishFor (fullCallId sampleFc)) = 0 ∧
    (Server.HandleFuncCallCompleteOrFailedMessage
        { sampleInit with
            running := [(fullCallId sampleFc, ⟨sampleFc, 3, some sampleCtxFc, 10, 10, []⟩)]
            discarded := [fullCallId sampleFc]
            connections := [3] }
        5 sampleMsg [42] 200 []).1.running.length + 1 = 1 :=
  ⟨(C4_theorem _ 5 sampleMsg [42] 200 [] ⟨sampleFc, 3, some sampleCtxFc, 10, 10, []⟩
      (by decide) (by decide) (by decide) (by decide) (by decide)
      (by decide) (by decide)).1,
   (C4_theorem _ 5 sampleMsg [42] 200 [] ⟨sampleFc, 3, some sampleCtxFc, 10, 10, []⟩
      (by decide) (by decide) (by decide) (by decide) (by decide)
      (by decide) (by decide)).2.2.2 (by decide)⟩

/-! ## C9 and C10: the call-table invariant -/

theorem fullCallId_inj_of_reduced : ∀ {a b : FuncCall}, reducedFC a → reducedFC b →
    fullCallId a = fullCallId b → a = b := by
  rintro ⟨af, am, ac, ak⟩ ⟨bf, bm, bc, bk⟩ ⟨ha1, ha2, ha3, ha4⟩ ⟨hb1, hb2, hb3, hb4⟩ h
  simp only [fullCallId] at h
  simp only at ha1 ha2 ha3 ha4 hb1 hb2 hb3 hb4
  rw [Nat.mod_eq_of_lt ha1, Nat.mod_eq_of_lt ha2, Nat.mod_eq_of_lt ha3,
    Nat.mod_eq_of_lt ha4, Nat.mod_eq_of_lt hb1, Nat.mod_eq_of_lt hb2,
    Nat.mod_eq_of_lt hb3, Nat.mod_eq_of_lt hb4] at h
  simp only [FuncCall.mk.injEq]
  omega

theorem nodup_middle_of {a : Nat} {p r : List Nat}
    (h : (p ++ r).Nodup) (ha : a ∉ p ++ r) : (p ++ a :: r).Nodup :=
  (List.Perm.nodup_iff List.perm_middle).mpr (List.nodup_cons.mpr ⟨ha, h⟩)

theorem keysA_insertA_of_not_mem {α : Type} (m : List (Nat × α)) (k : Nat) (v : α)
    (h : k ∉ keysA m) : keysA (insertA m k v) = k :: keysA m := by
  rw [keysA_insertA]
  congr 1
  apply List.filter_eq_self.mpr
  intro x hx
  simp only [Bool.not_eq_eq_eq_not, Bool.not_true, beq_eq_false_iff_ne, ne_eq]
  exact fun hxk => h (hxk ▸ hx)

theorem mem_insertA {α : Type} {m : List (Nat × α)} {k : Nat} {v : α} {kv : Nat × α}
    (h : kv ∈ insertA m k v) : kv = (k, v) ∨ kv ∈ m := by
  rcases List.mem_cons.mp h with h1 | h1
  · exact Or.inl h1
  · exact Or.inr (List.mem_of_mem_filter h1)

theorem lookupA_mem {α : Type} : ∀ {m : List (Nat × α)} {k : Nat} {v : α},
    lookupA m k = some v → (k, v) ∈ m := by
  intro m
  induction m with
  | nil => intro k v h; simp [lookupA] at h
  | cons hd tl ih =>
    intro k v h
    by_cases hk : hd.1 = k
    · simp only [lookupA, if_pos hk] at h
      have hv : hd.2 = v := Option.some_inj.mp h
      have hkv : (k, v) = hd := Prod.ext hk.symm hv.symm
      rw [hkv]
      exact List.mem_cons_self _ _
    · simp only [lookupA, if_neg hk] at h
      exact List.mem_cons_of_mem _ (ih h)

theorem InvL_nodup_head {st : FuncCallState} {p : List FuncCallState}
    {r : List (Nat × FuncCallState)} {pf : List (Nat × PerFuncStat)} {next : Nat}
    (h : InvL (st :: p) r pf next) :
    (fullCallId st.func_call :: (pendIdsL p ++ keysA r)).Nodup := by
  simpa [pendIdsL] using h.1

theorem InvL_tail {st : FuncCallState} {p : List FuncCallState}
    {r : List (Nat × FuncCallState)} {pf : List (Nat × PerFuncStat)} {next : Nat}
    (h : InvL (st :: p) r pf next) : InvL p r pf next := by
  obtain ⟨hnd, hp, hr, hpp, hrp⟩ := h
  exact ⟨(List.nodup_cons.mp (InvL_nodup_head ⟨hnd, hp, hr, hpp, hrp⟩)).2,
    fun x hx => hp x (List.mem_cons_of_mem _ hx), hr,
    fun x hx => hpp x (List.mem_cons_of_mem _ hx), hrp⟩

theorem InvL_head_not_mem {st : FuncCallState} {p : List FuncCallState}
    {r : List (Nat × FuncCallState)} {pf : List (Nat × PerFuncStat)} {next : Nat}
    (h : InvL (st :: p) r pf next) :
    fullCallId st.func_call ∉ pendIdsL p ++ keysA r :=
  (List.nodup_cons.mp (InvL_nodup_head h)).1

theorem InvL_next_mono {p : List FuncCallState} {r : List (Nat × FuncCallState)}
    {pf : List (Nat × PerFuncStat)} {next next' : Nat}
    (h : InvL p r pf next) (hle : next ≤ next') : InvL p r pf next' :=
  ⟨h.1,
   fun st hst => ⟨(h.2.1 st hst).1, lt_of_lt_of_le (h.2.1 st hst).2 hle⟩,
   fun kv hkv => ⟨(h.2.2.1 kv hkv).1, (h.2.2.1 kv hkv).2.1,
     lt_of_lt_of_le (h.2.2.1 kv hkv).2.2 hle⟩,
   h.2.2.2.1, h.2.2.2.2⟩

theorem InvL_pf_insert {p : List FuncCallState} {r : List (Nat × FuncCallState)}
    {pf : List (Nat × PerFuncStat)} {next : Nat} (g : Nat) (v : PerFuncStat)
    (h : InvL p r pf next) : InvL p r (insertA pf g v) next :=
  ⟨h.1, h.2.1, h.2.2.1,
   fun x hx => lookupA_isSome_insertA _ _ _ _ (h.2.2.2.1 x hx),
   fun kv hkv => lookupA_isSome_insertA _ _ _ _ (h.2.2.2.2 kv hkv)⟩

theorem InvL_enqueue {p : List FuncCallState} {r : List (Nat × FuncCallState)}
    {pf : List (Nat × PerFuncStat)} {next : Nat} {st : FuncCallState}
    (h : InvL p r pf next) (hok : stOk next st)
    (hpf : (lookupA pf st.func_call.func_id).isSome = true)
    (hfree : fullCallId st.func_call ∉ pendIdsL p ++ keysA r) :
    InvL (p ++ [st]) r pf next := by
  obtain ⟨hnd, hp, hr, hpp, hrp⟩ := h
  refine ⟨?_, ?_, hr, ?_, hrp⟩
  · have h1 : (pendIdsL p ++ fullCallId st.func_call :: keysA r).Nodup :=
      nodup_middle_of hnd hfree
    simpa [pendIdsL, List.append_assoc] using h1
  · intro x hx
    rcases List.mem_append.mp hx with h1 | h1
    · exact hp x h1
    · rw [List.mem_singleton.mp h1]; exact hok
  · intro x hx
    rcases List.mem_append.mp hx with h1 | h1
    · exact hpp x h1
    · rw [List.mem_singleton.mp h1]; exact hpf

theorem InvL_insert_running {p : List FuncCallState} {r : List (Nat × FuncCallState)}
    {pf : List (Nat × PerFuncStat)} {next : Nat} {st1 : FuncCallState} {fid : Nat}
    (h : InvL p r pf next) (hok : stOk next st1)
    (hpf : (lookupA pf st1.func_call.func_id).isSome = true)
    (hfid : fid = fullCallId st1.func_call)
    (hfree : fid ∉ pendIdsL p ++ keysA r) :
    InvL p (insertA r fid st1) pf next := by
  obtain ⟨hnd, hp, hr, hpp, hrp⟩ := h
  have hfreeR : fid ∉ keysA r := fun hm => hfree (List.mem_append.mpr (Or.inr hm))
  refine ⟨?_, hp, ?_, hpp, ?_⟩
  · rw [keysA_insertA_of_not_mem _ _ _ hfreeR]
    exact nodup_middle_of hnd hfree
  · intro kv hkv
    rcases mem_insertA hkv with h1 | h1
    · rw [h1]; exact ⟨hfid, hok⟩
    · exact hr kv h1
  · intro kv hkv
    rcases mem_insertA hkv with h1 | h1
    · rw [h1]; exact hpf
    · exact hrp kv h1

theorem InvL_erase_running {p : List FuncCallState} {r : List (Nat × FuncCallState)}
    {pf : List (Nat × PerFuncStat)} {next : Nat} (k : Nat)
    (h : InvL p r pf next) : InvL p (eraseA r k) pf next := by
  obtain ⟨hnd, hp, hr, hpp, hrp⟩ := h
  refine ⟨?_, hp, fun kv hkv => hr kv (mem_of_mem_eraseA _ _ _ hkv),
    hpp, fun kv hkv => hrp kv (mem_of_mem_eraseA _ _ _ hkv)⟩
  exact List.Nodup.sublist ((keysA_eraseA_sublist r k).append_left _) hnd

theorem fresh_fullCallId {p : List FuncCallState} {r : List (Nat × FuncCallState)}
    {pf : List (Nat × PerFuncStat)} {next : Nat}
    (hI : InvL p r pf next) (fc : FuncCall)
    (hred : reducedFC fc) (hge : next ≤ fc.call_id) :
    fullCallId fc ∉ pendIdsL p ++ keysA r := by
  intro hmem
  rcases List.mem_append.mp hmem with hm | hm
  · obtain ⟨st, hst, hid⟩ := List.mem_map.mp hm
    have hok := hI.2.1 st hst
    have heq := fullCallId_inj_of_reduced hok.1 hred hid
    have : st.func_call.call_id = fc.call_id := by rw [heq]
    have := hok.2
    omega
  · obtain ⟨kv, hkv, hid⟩ := List.mem_map.mp hm
    have hkc := hI.2.2.1 kv hkv
    have hideq : fullCallId kv.2.func_call = fullCallId fc := by rw [← hkc.1, hid]
    have heq := fullCallId_inj_of_reduced hkc.2.1 hred hideq
    have : kv.2.func_call.call_id = fc.call_id := by rw [heq]
    have := hkc.2.2
    omega

theorem drainGo_next (fuel : Nat) :
    ∀ (s : ServerState) (arrivals : List (List FuncCallState)) (oracles : List DrainOracle),
    (Server.drainGo fuel s arrivals oracles).1.next_call_id = s.next_call_id := by
  induction fuel with
  | zero => intro s arrivals oracles; simp [Server.drainGo]
  | succ fuel ih =>
    intro s arrivals oracles
    rw [Server.drainGo]
    cases hpend : s.pending with
    | nil => simp
    | cons st rest =>
      simp only []
      split
      · rw [ih]
      · split
        · rw [ih]
        · split
          · simp
          · rw [ih]
            simp [apply_ite ServerState.next_call_id]

theorem Inv_drainGo (fuel : Nat) :
    ∀ (s : ServerState) (oracles : List DrainOracle), Inv s →
    Inv (Server.drainGo fuel s [] oracles).1 := by
  induction fuel with
  | zero => intro s oracles h; exact h
  | succ fuel ih =>
    intro s oracles h
    rw [Server.drainGo]
    cases hpend : s.pending with
    | nil => exact h
    | cons st rest =>
      have hI : InvL (st :: rest) s.running s.per_func_stats s.next_call_id := by
        have h' := h; unfold Inv at h'; rwa [hpend] at h'
      simp only []
      split
      · exact ih _ oracles (InvL_tail hI)
      · split
        · exact ih _ oracles (InvL_tail hI)
        · split
          · unfold Inv
            simpa [List.append_nil] using hI
          · have hok : stOk s.next_call_id st := hI.2.1 st (List.mem_cons_self _ _)
            have hpfst : (lookupA s.per_func_stats st.func_call.func_id).isSome = true :=
              hI.2.2.2.1 st (List.mem_cons_self _ _)
            apply ih _ oracles.tail
            split <;> split <;>
              first
              | · simp only [Inv, List.headD_nil, List.append_nil]
                  exact InvL_insert_running (InvL_tail hI) hok hpfst rfl
                    (InvL_head_not_mem hI)
              | · simp only [Inv, List.headD_nil, List.append_nil]
                  exact InvL_tail hI

theorem Inv_tryDispatch (s : ServerState) (oracles : List DrainOracle) (h : Inv s) :
    Inv (Server.TryDispatchingPendingFuncCalls s [] oracles).1 :=
  Inv_drainGo _ s oracles h

theorem common_next (s : ServerState) (conn : Int) (ctx : FuncCallContext)
    (pick : Option Nat) (sendOk : Bool) (clock : Int) :
    (Server.OnNewFuncCallCommon s conn ctx pick sendOk clock).1.next_call_id
      = s.next_call_id := by
  cases pick <;> cases hA : ctx.is_async <;> cases sendOk <;>
    simp [Server.OnNewFuncCallCommon, Server.TickNewFuncCall,
      Server.DispatchFuncCall, Server.DispatchAsyncFuncCall, hA]

theorem Inv_common (s : ServerState) (conn : Int) (ctx : FuncCallContext)
    (pick : Option Nat) (sendOk : Bool) (clock : Int)
    (h : Inv s) (hred : reducedFC ctx.func_call)
    (hcid : ctx.func_call.call_id < s.next_call_id)
    (hfresh : fullCallId ctx.func_call ∉ pendIdsL s.pending ++ keysA s.running) :
    Inv (Server.OnNewFuncCallCommon s conn ctx pick sendOk clock).1 := by
  cases pick with
  | none =>
    cases hA : ctx.is_async <;>
      · simp only [Server.OnNewFuncCallCommon, Server.TickNewFuncCall, hA]
        simp only [Option.isNone_none, if_true, Bool.false_eq_true, if_false,
          Bool.true_eq_false, ite_true, ite_false]
        exact InvL_enqueue (InvL_pf_insert _ _ h) ⟨hred, hcid⟩
          (by simp [lookupA_insertA]) hfresh
  | some node =>
    cases hA : ctx.is_async <;> cases sendOk <;>
      · simp only [Server.OnNewFuncCallCommon, Server.TickNewFuncCall,
          Server.DispatchFuncCall, Server.DispatchAsyncFuncCall, hA]
        simp only [Option.isNone_some, Bool.false_eq_true, if_false, ite_true,
          ite_false, Bool.true_eq_false]
        first
        | exact InvL_insert_running (InvL_pf_insert _ _ h) ⟨hred, hcid⟩
            (by simp [lookupA_insertA]) rfl hfresh
        | exact InvL_pf_insert _ _ h

theorem Inv_OnNewHttpFuncCall (s : ServerState) (conn : Int) (ctx : FuncCallContext)
    (pick : Option Nat) (sendOk : Bool) (clock : Int)
    (h : Inv s) (hb : s.next_call_id < 2 ^ 16) :
    Inv (Server.OnNewHttpFuncCall s conn ctx pick sendOk clock).1 := by
  unfold Server.OnNewHttpFuncCall
  cases hfind : s.func_config.find_by_func_name ctx.func_name with
  | none => exact h
  | some e =>
    simp only []
    have hcid : ((s.next_call_id % 2 ^ 32) % 2 ^ 16) = s.next_call_id := by
      rw [Nat.mod_eq_of_lt (lt_trans hb (by norm_num)),
        Nat.mod_eq_of_lt hb]
    apply Inv_common
    · exact InvL_next_mono h (Nat.le_succ _)
    · refine ⟨?_, ?_, ?_, ?_⟩ <;>
        simp [FuncCallHelper.New] <;> exact Nat.mod_lt _ (by norm_num)
    · simp only [FuncCallHelper.New]
      omega
    · exact fresh_fullCallId h _
        (by refine ⟨?_, ?_, ?_, ?_⟩ <;>
          simp [FuncCallHelper.New] <;> exact Nat.mod_lt _ (by norm_num))
        (by simp only [FuncCallHelper.New]; omega)

theorem Inv_OnNewGrpcFuncCall (s : ServerState) (conn : Int) (ctx : FuncCallContext)
    (pick : Option Nat) (sendOk : Bool) (clock : Int)
    (h : Inv s) (hb : s.next_call_id < 2 ^ 16) :
    Inv (Server.OnNewGrpcFuncCall s conn ctx pick sendOk clock).1 := by
  unfold Server.OnNewGrpcFuncCall
  cases hfind : s.func_config.find_by_func_name ctx.func_name with
  | none => exact h
  | some e =>
    simp only []
    split
    · exact h
    · have hcid : ((s.next_call_id % 2 ^ 32) % 2 ^ 16) = s.next_call_id := by
        rw [Nat.mod_eq_of_lt (lt_trans hb (by norm_num)),
          Nat.mod_eq_of_lt hb]
      apply Inv_common
      · exact InvL_next_mono h (Nat.le_succ _)
      · refine ⟨?_, ?_, ?_, ?_⟩ <;>
          simp [FuncCallHelper.NewWithMethod] <;> exact Nat.mod_lt _ (by norm_num)
      · simp only [FuncCallHelper.NewWithMethod]
        omega
      · exact fresh_fullCallId h _
          (by refine ⟨?_, ?_, ?_, ?_⟩ <;>
            simp [FuncCallHelper.NewWithMethod] <;> exact Nat.mod_lt _ (by norm_num))
          (by simp only [FuncCallHelper.NewWithMethod]; omega)

theorem handle_next (s : ServerState) (node : Nat) (message : GatewayMessage)
    (payload : List Nat) (clock : Int) (oracles : List DrainOracle) :
    (Server.HandleFuncCallCompleteOrFailedMessage s node message payload clock
        oracles).1.next_call_id = s.next_call_id := by
  unfold Server.HandleFuncCallCompleteOrFailedMessage
  simp only []
  cases hrun : lookupA s.running (fullCallId message.func_call) with
  | none => rfl
  | some st =>
    simp only [Server.TryDispatchingPendingFuncCalls]
    rw [drainGo_next]
    split <;> try rfl
    split <;> rfl

theorem Inv_handle (s : ServerState) (node : Nat) (message : GatewayMessage)
    (payload : List Nat) (clock : Int) (oracles : List DrainOracle) (h : Inv s) :
    Inv (Server.HandleFuncCallCompleteOrFailedMessage s node message payload clock
        oracles).1 := by
  unfold Server.HandleFuncCallCompleteOrFailedMessage
  simp only []
  cases hrun : lookupA s.running (fullCallId message.func_call) with
  | none => exact h
  | some st =>
    simp only [Server.TryDispatchingPendingFuncCalls]
    apply Inv_drainGo
    split
    · split
      · exact InvL_erase_running _ (InvL_pf_insert _ _ h)
      · exact InvL_erase_running _ h
    · exact InvL_erase_running _ h

theorem countNewCalls_cons (a : Action) (rest : List Action) :
    countNewCalls (a :: rest) = countNewCalls [a] + countNewCalls rest := by
  cases a <;> simp [countNewCalls] <;> omega

theorem next_step_le (s : ServerState) (a : Action) :
    (Server.step s a).1.next_call_id ≤ s.next_call_id + countNewCalls [a] := by
  cases a with
  | httpCall conn ctx pick sendOk clock =>
    simp only [Server.step, Server.OnNewHttpFuncCall, countNewCalls]
    cases hfind : s.func_config.find_by_func_name ctx.func_name with
    | none => simp
    | some e =>
      simp only []
      rw [common_next]
  | grpcCall conn ctx pick sendOk clock =>
    simp only [Server.step, Server.OnNewGrpcFuncCall, countNewCalls]
    cases hfind : s.func_config.find_by_func_name ctx.func_name with
    | none => simp
    | some e =>
      simp only []
      split
      · simp
      · rw [common_next]
  | engineReply node message payload clock oracles =>
    simp only [Server.step, Server.OnRecvEngineMessage, countNewCalls]
    split
    · rw [handle_next]; simp
    · simp
  | nodeConnected oracles =>
    simp only [Server.step, Server.TryDispatchingPendingFuncCalls, countNewCalls]
    rw [drainGo_next]; simp
  | discardCall fc => simp [Server.step, Server.DiscardFuncCall, countNewCalls]
  | connOpen conn => simp [Server.step, countNewCalls]
  | connClose conn => simp [Server.step, countNewCalls]

theorem Inv_step (s : ServerState) (a : Action) (h : Inv s)
    (hb : s.next_call_id + countNewCalls [a] ≤ 2 ^ 16) :
    Inv (Server.step s a).1 := by
  cases a with
  | httpCall conn ctx pick sendOk clock =>
    exact Inv_OnNewHttpFuncCall s conn ctx pick sendOk clock h
      (by simp [countNewCalls] at hb; omega)
  | grpcCall conn ctx pick sendOk clock =>
    exact Inv_OnNewGrpcFuncCall s conn ctx pick sendOk clock h
      (by simp [countNewCalls] at hb; omega)
  | engineReply node message payload clock oracles =>
    simp only [Server.step, Server.OnRecvEngineMessage]
    split
    · exact Inv_handle s node message payload clock oracles h
    · exact h
  | nodeConnected oracles => exact Inv_tryDispatch s oracles h
  | discardCall fc => exact h
  | connOpen conn => exact h
  | connClose conn => exact h

theorem Inv_run (s : ServerState) (acts : List Action) (h : Inv s)
    (hb : s.next_call_id + countNewCalls acts ≤ 2 ^ 16) :
    Inv (Server.run s acts).1 := by
  induction acts generalizing s with
  | nil => exact h
  | cons a rest ih =>
    rw [countNewCalls_cons] at hb
    have h1 : Inv (Server.step s a).1 := Inv_step s a h (by omega)
    have h2 := next_step_le s a
    exact ih (Server.step s a).1 h1 (by omega)

/-- C9: at every quiescent point reachable without exhausting the 16-bit
call-id space, no `full_call_id` is simultaneously an element of the
pending queue and a key of the running map: every reachable state
satisfies the call-table invariant, whose id lists are mutually
duplicate-free. -/
theorem C9_theorem (s : ServerState) (acts : List Action)
    (h : Inv s) (hb : s.next_call_id + countNewCalls acts ≤ 2 ^ 16) :
    ∀ id ∈ pendingIds (Server.run s acts).1, id ∉ runningIds (Server.run s acts).1 := by
  have hI := Inv_run s acts h hb
  have hnd := hI.1
  intro id hid hmem
  exact ((List.nodup_append.mp hnd).2.2) hid hmem

/-- C10: in every reachable state, the per-function stats table contains
an entry for the `func_id` of every call in the running map (created under
the lock by `TickNewFuncCall` before the call could enter running), so the
lookup performed when an async completion samples `end2end_delay` never
misses. -/
theorem C10_theorem (s : ServerState) (acts : List Action)
    (h : Inv s) (hb : s.next_call_id + countNewCalls acts ≤ 2 ^ 16) :
    (∀ kv ∈ (Server.run s acts).1.running,
      (lookupA (Server.run s acts).1.per_func_stats kv.2.func_call.func_id).isSome
        = true) ∧
    (∀ fc : FuncCall, reducedFC fc →
      (lookupA (Server.run s acts).1.running (fullCallId fc)).isSome = true →
      (lookupA (Server.run s acts).1.per_func_stats fc.func_id).isSome = true) := by
  have hI := Inv_run s acts h hb
  refine ⟨hI.2.2.2.2, ?_⟩
  intro fc hred hsome
  obtain ⟨st, hst⟩ := Option.isSome_iff_exists.mp hsome
  have hmem := lookupA_mem hst
  have hkey := (hI.2.2.1 _ hmem).1
  have hredst := (hI.2.2.1 _ hmem).2.1
  have heq : fc = st.func_call :=
    fullCallId_inj_of_reduced hred hredst (by rw [← hkey])
  rw [heq]
  exact hI.2.2.2.2 _ hmem

/-- C9 witness: after queueing `hello` and dispatching `greet`, the queued
call's id is not a key of the running map. -/
theorem C9_witness :
    fullCallId sampleFc ∉ runningIds (Server.run sampleInit invActs).1 :=
  C9_theorem sampleInit invActs (by decide) (by decide)
    (fullCallId sampleFc) (by decide)

/-- C10 witness: the running `greet` call's function has its per-function
stats entry, so the `end2end_delay` lookup cannot miss. -/
theorem C10_witness :
    (lookupA (Server.run sampleInit invActs).1.per_func_stats 9).isSome = true :=
  (C10_theorem sampleInit invActs (by decide) (by decide)).2
    (FuncCallHelper.New 9 0 2) (by decide) (by decide)

/-! ## C1: reservation balance -/

theorem pendctx_drainGo (fuel : Nat) :
    ∀ (s : ServerState) (oracles : List DrainOracle), PendCtxOk s →
    PendCtxOk (Server.drainGo fuel s [] oracles).1 := by
  induction fuel with
  | zero => intro s oracles h; exact h
  | succ fuel ih =>
    intro s oracles h
    rw [Server.drainGo]
    cases hpend : s.pending with
    | nil => exact h
    | cons st rest =>
      have hrest : ∀ x ∈ rest, x.connection_id ≠ -1 →
          (x.context.getD default).func_call = x.func_call :=
        fun x hx => h x (by rw [hpend]; exact List.mem_cons_of_mem _ hx)
      simp only []
      split
      · exact ih _ oracles (fun x hx => hrest x (by simpa using hx))
      · split
        · exact ih _ oracles (fun x hx => hrest x (by simpa using hx))
        · split
          · intro x hx
            refine h x ?_
            rw [hpend]
            simpa using hx
          · apply ih _ oracles.tail
            intro x hx
            exact hrest x (by simpa [apply_ite ServerState.pending] using hx)

theorem pendctx_common (s : ServerState) (conn : Int) (ctx : FuncCallContext)
    (pick : Option Nat) (sendOk : Bool) (clock : Int) (h : PendCtxOk s) :
    PendCtxOk (Server.OnNewFuncCallCommon s conn ctx pick sendOk clock).1 := by
  cases pick with
  | none =>
    cases hA : ctx.is_async <;>
      · simp only [Server.OnNewFuncCallCommon, Server.TickNewFuncCall, hA]
        simp only [Option.isNone_none, ite_true, ite_false, Bool.false_eq_true,
          Bool.true_eq_false, if_true, if_false]
        intro x hx hsync
        rcases List.mem_append.mp hx with h1 | h1
        · exact h x h1 hsync
        · rw [List.mem_singleton.mp h1]
          first
          | rfl
          | exact absurd rfl (by rw [List.mem_singleton.mp h1] at hsync; exact hsync)
  | some node =>
    cases hA : ctx.is_async <;> cases sendOk <;>
      · simp only [Server.OnNewFuncCallCommon, Server.TickNewFuncCall,
          Server.DispatchFuncCall, Server.DispatchAsyncFuncCall, hA]
        simp only [Option.isNone_some, ite_true, ite_false, Bool.false_eq_true,
          Bool.true_eq_false, if_true, if_false]
        exact h

theorem pendctx_handle (s : ServerState) (node : Nat) (message : GatewayMessage)
    (payload : List Nat) (clock : Int) (oracles : List DrainOracle)
    (h : PendCtxOk s) :
    PendCtxOk (Server.HandleFuncCallCompleteOrFailedMessage s node message payload
      clock oracles).1 := by
  unfold Server.HandleFuncCallCompleteOrFailedMessage
  simp only []
  cases hrun : lookupA s.running (fullCallId message.func_call) with
  | none => exact h
  | some st =>
    simp only [Server.TryDispatchingPendingFuncCalls]
    apply pendctx_drainGo
    intro x hx hsync
    refine h x ?_ hsync
    revert hx
    split <;> (try split) <;> (intro hx; simpa using hx)

theorem pendctx_step (s : ServerState) (a : Action) (h : PendCtxOk s) :
    PendCtxOk (Server.step s a).1 := by
  cases a with
  | httpCall conn ctx pick sendOk clock =>
    simp only [Server.step, Server.OnNewHttpFuncCall]
    cases hfind : s.func_config.find_by_func_name ctx.func_name with
    | none => exact h
    | some e => exact pendctx_common _ _ _ _ _ _ h
  | grpcCall conn ctx pick sendOk clock =>
    simp only [Server.step, Server.OnNewGrpcFuncCall]
    cases hfind : s.func_config.find_by_func_name ctx.func_name with
    | none => exact h
    | some e =>
      simp only []
      split
      · exact h
      · exact pendctx_common _ _ _ _ _ _ h
  | engineReply node message payload clock oracles =>
    simp only [Server.step, Server.OnRecvEngineMessage]
    split
    · exact pendctx_handle _ _ _ _ _ _ h
    · exact h
  | nodeConnected oracles => exact pendctx_drainGo _ _ oracles h
  | discardCall fc => exact h
  | connOpen conn => exact h
  | connClose conn => exact h

theorem drainGo_bal (fuel : Nat) :
    ∀ (s : ServerState) (oracles : List DrainOracle) (p : Nat × Nat),
    PendCtxOk s →
    (List.count p (Server.drainGo fuel s [] oracles).1.nm_reservations : Int)
      = (List.count p s.nm_reservations : Int)
        + (Server.drainGo fuel s [] oracles).2.1.countP (isPickOkEv p)
        - (Server.drainGo fuel s [] oracles).2.1.countP (isFinEv p) := by
  induction fuel with
  | zero => intro s oracles p _; simp [Server.drainGo]
  | succ fuel ih =>
    intro s oracles p hctx
    rw [Server.drainGo]
    cases hpend : s.pending with
    | nil => simp
    | cons st rest =>
      have hrest : ∀ x ∈ rest, x.connection_id ≠ -1 →
          (x.context.getD default).func_call = x.func_call :=
        fun x hx => hctx x (by rw [hpend]; exact List.mem_cons_of_mem _ hx)
      have hhd := fun h => hctx st (by rw [hpend]; exact List.mem_cons_self _ _) h
      simp only []
      split
      · refine (ih _ oracles p ?_).trans ?_
        · intro x hx
          exact hrest x (by simpa using hx)
        · simp
      · split
        · refine (ih _ oracles p ?_).trans ?_
          · intro x hx
            exact hrest x (by simpa using hx)
          · simp
        · split
          · simp [isFinEv, isPickOkEv]
          · rename_i node hnode
            simp only [Server.DispatchAsyncFuncCall, Server.DispatchFuncCall]
            split
            · refine (ih _ oracles.tail p ?_).trans ?_
              · intro x hx
                exact hrest x (by simpa [apply_ite ServerState.pending] using hx)
              · by_cases hpq : p = (fullCallId st.func_call, node)
                · subst hpq
                  cases hsOk : (oracles.headD ⟨none, false, 0⟩).sendOk <;>
                    simp [hsOk, isFinEv, isPickOkEv, List.count_cons,
                      List.countP_cons, List.countP_append] <;> omega
                · have hqp : ((fullCallId st.func_call, node) == p) = false := by
                    simp [Ne.symm hpq]
                  have hpqb : (p == (fullCallId st.func_call, node)) = false := by
                    simp [hpq]
                  cases hsOk : (oracles.headD ⟨none, false, 0⟩).sendOk <;>
                    simp [hsOk, isFinEv, isPickOkEv, List.count_cons, hqp, hpqb,
                      List.countP_cons, List.countP_append] <;> omega
            · rename_i hsyncB
              have hcc : (st.context.getD default).func_call = st.func_call :=
                hhd (by simpa using hsyncB)
              simp only [hcc]
              refine (ih _ oracles.tail p ?_).trans ?_
              · intro x hx
                exact hrest x (by simpa [apply_ite ServerState.pending] using hx)
              · by_cases hpq : p = (fullCallId st.func_call, node)
                · subst hpq
                  cases hsOk : (oracles.headD ⟨none, false, 0⟩).sendOk <;>
                    simp [hsOk, isFinEv, isPickOkEv, List.count_cons,
                      List.countP_cons, List.countP_append] <;> omega
                · have hqp : ((fullCallId st.func_call, node) == p) = false := by
                    simp [Ne.symm hpq]
                  have hpqb : (p == (fullCallId st.func_call, node)) = false := by
                    simp [hpq]
                  cases hsOk : (oracles.headD ⟨none, false, 0⟩).sendOk <;>
                    simp [hsOk, isFinEv, isPickOkEv, List.count_cons, hqp, hpqb,
                      List.countP_cons, List.countP_append] <;> omega

theorem common_bal (s : ServerState) (conn : Int) (ctx : FuncCallContext)
    (pick : Option Nat) (sendOk : Bool) (clock : Int) (p : Nat × Nat) :
    (List.count p (Server.OnNewFuncCallCommon s conn ctx pick
        sendOk clock).1.nm_reservations : Int)
      = (List.count p s.nm_reservations : Int)
        + (Server.OnNewFuncCallCommon s conn ctx pick sendOk clock).2.2.countP
            (isPickOkEv p)
        - (Server.OnNewFuncCallCommon s conn ctx pick sendOk clock).2.2.countP
            (isFinEv p) := by
  cases pick with
  | none =>
    cases hA : ctx.is_async <;>
      simp [Server.OnNewFuncCallCommon, Server.TickNewFuncCall, hA,
        isFinEv, isPickOkEv]
  | some node =>
    cases hA : ctx.is_async <;> cases sendOk <;>
      · by_cases hpq : p = (fullCallId ctx.func_call, node)
        · subst hpq
          simp [Server.OnNewFuncCallCommon, Server.TickNewFuncCall,
            Server.DispatchFuncCall, Server.DispatchAsyncFuncCall, hA,
            isFinEv, isPickOkEv, List.count_cons, List.countP_cons,
            List.countP_append] <;> omega
        · have hqp : ((fullCallId ctx.func_call, node) == p) = false := by
            simp [Ne.symm hpq]
          have hpqb : (p == (fullCallId ctx.func_call, node)) = false := by
            simp [hpq]
          simp [Server.OnNewFuncCallCommon, Server.TickNewFuncCall,
            Server.DispatchFuncCall, Server.DispatchAsyncFuncCall, hA,
            isFinEv, isPickOkEv, List.count_cons, List.countP_cons,
            List.countP_append, hqp, hpqb] <;> omega

theorem handle_bal (s : ServerState) (node : Nat) (message : GatewayMessage)
    (payload : List Nat) (clock : Int) (oracles : List DrainOracle) (p : Nat × Nat)
    (hctx : PendCtxOk s)
    (hrun : (lookupA s.running (fullCallId message.func_call)).isSome = true)
    (hres : (fullCallId message.func_call, node) ∈ s.nm_reservations) :
    (List.count p (Server.HandleFuncCallCompleteOrFailedMessage s node message
        payload clock oracles).1.nm_reservations : Int)
      = (List.count p s.nm_reservations : Int)
        + (Server.HandleFuncCallCompleteOrFailedMessage s node message payload
            clock oracles).2.countP (isPickOkEv p)
        - (Server.HandleFuncCallCompleteOrFailedMessage s node message payload
            clock oracles).2.countP (isFinEv p) := by
  obtain ⟨st, hst⟩ := Option.isSome_iff_exists.mp hrun
  unfold Server.HandleFuncCallCompleteOrFailedMessage
  simp only []
  rw [hst]
  simp only [Server.TryDispatchingPendingFuncCalls]
  refine (drainGo_bal _ _ oracles p ?_).trans ?_
  · intro x hx hsync
    refine hctx x ?_ hsync
    revert hx
    split <;> (try split) <;> (intro hx; simpa using hx)
  · by_cases hpq : p = (fullCallId message.func_call, node)
    · subst hpq
      have hpos := List.count_pos_iff.mpr hres
      split <;> (try split) <;> (try split) <;> (try split) <;>
        simp [isFinEv, isPickOkEv, List.countP_cons, List.countP_append,
          List.count_erase_self] <;> omega
    · have hqp : ((fullCallId message.func_call, node) == p) = false := by
        simp [Ne.symm hpq]
      split <;> (try split) <;> (try split) <;> (try split) <;>
        simp [isFinEv, isPickOkEv, List.countP_cons, List.countP_append,
          List.count_erase_of_ne hpq, hqp] <;> omega

theorem step_bal (s : ServerState) (a : Action) (p : Nat × Nat)
    (hctx : PendCtxOk s) (hwm : wmActionB s a = true) :
    (List.count p (Server.step s a).1.nm_reservations : Int)
      = (List.count p s.nm_reservations : Int)
        + (Server.step s a).2.countP (isPickOkEv p)
        - (Server.step s a).2.countP (isFinEv p) := by
  cases a with
  | httpCall conn ctx pick sendOk clock =>
    simp only [Server.step, Server.OnNewHttpFuncCall]
    cases hfind : s.func_config.find_by_func_name ctx.func_name with
    | none => simp [isFinEv, isPickOkEv]
    | some e =>
      simp only []
      exact common_bal _ _ _ _ _ _ p
  | grpcCall conn ctx pick sendOk clock =>
    simp only [Server.step, Server.OnNewGrpcFuncCall]
    cases hfind : s.func_config.find_by_func_name ctx.func_name with
    | none => simp [isFinEv, isPickOkEv]
    | some e =>
      simp only []
      split
      · simp [isFinEv, isPickOkEv]
      · exact common_bal _ _ _ _ _ _ p
  | engineReply node message payload clock oracles =>
    simp only [Server.step, Server.OnRecvEngineMessage]
    split
    · rename_i hmsg
      have hwm' := hwm
      simp only [wmActionB, if_pos hmsg, Bool.and_eq_true] at hwm'
      obtain ⟨hA, hB⟩ := hwm'
      exact handle_bal s node message payload clock oracles p hctx hA
        (of_decide_eq_true hB)
    · simp
  | nodeConnected oracles =>
    simp only [Server.step, Server.TryDispatchingPendingFuncCalls]
    exact drainGo_bal _ _ oracles p hctx
  | discardCall fc => simp [Server.step, Server.DiscardFuncCall]
  | connOpen conn => simp [Server.step]
  | connClose conn => simp [Server.step]

theorem run_bal (acts : List Action) :
    ∀ (s : ServerState) (p : Nat × Nat), PendCtxOk s → wmRunB s acts = true →
    (List.count p (Server.run s acts).1.nm_reservations : Int)
      = (List.count p s.nm_reservations : Int)
        + (Server.run s acts).2.countP (isPickOkEv p)
        - (Server.run s acts).2.countP (isFinEv p) := by
  induction acts with
  | nil => intro s p _ _; simp [Server.run]
  | cons a rest ih =>
    intro s p hctx hwm
    rw [Server.run]
    simp only [List.countP_append]
    rw [wmRunB] at hwm
    simp only [Bool.and_eq_true] at hwm
    obtain ⟨hwm1, hwm2⟩ := hwm
    have h1 := step_bal s a p hctx hwm1
    have h2 := ih (Server.step s a).1 p (pendctx_step s a hctx) hwm2
    omega

/-- C1 (amended): over any trace in which every engine reply targets a
call still in the running map with a reservation the NodeManager holds for
that node, picks and releases balance exactly: the number of currently held
reservations for each `(full_call_id, node)` pair equals the successful
picks minus the `FuncCallFinished` calls for that pair, so every successful
pick is matched by exactly one release once its call completes, fails or is
discarded.  (A late or duplicate reply, excluded here, performs an
additional release before being dropped — see the counterexample.) -/
theorem C1_theorem (s : ServerState) (acts : List Action) (p : Nat × Nat)
    (hctx : PendCtxOk s) (hwm : wmRunB s acts = true) :
    (List.count p (Server.run s acts).1.nm_reservations : Int)
      = (List.count p s.nm_reservations : Int)
        + (Server.run s acts).2.countP (isPickOkEv p)
        - (Server.run s acts).2.countP (isFinEv p) :=
  run_bal acts s p hctx hwm

/-- C1 witness: a dispatched call and its single well-matched reply leave
no reservation held — one pick, one release. -/
theorem C1_witness :
    (List.count (fullCallId sampleFc, 5)
        (Server.run sampleInit wmActs).1.nm_reservations : Int)
      = (List.count (fullCallId sampleFc, 5) sampleInit.nm_reservations : Int)
        + (Server.run sampleInit wmActs).2.countP (isPickOkEv (fullCallId sampleFc, 5))
        - (Server.run sampleInit wmActs).2.countP (isFinEv (fullCallId sampleFc, 5)) :=
  C1_theorem sampleInit wmActs (fullCallId sampleFc, 5) (by decide) (by decide)

/-- C1 counterexample: a duplicate engine reply (its call is no longer in
the running map) performs an extra `FuncCallFinished` before being dropped:
the trace has exactly one successful pick for the call but two
`FuncCallFinished` calls for the same `(call, node)` pair, refuting both
"exactly one matching FuncCallFinished" and "no extra release". -/
theorem C1_counterexample :
    (Server.run sampleInit dupActs).2.countP (isPickOkEv (fullCallId sampleFc, 5)) = 1 ∧
    (Server.run sampleInit dupActs).2.countP (isFinEv (fullCallId sampleFc, 5)) = 2 := by
  refine ⟨by decide, by decide⟩

end Gateway
